import Mathlib

/-!
Shallow embedding of `bikeshed/refs/RefSource.py`.

The Python module implements a cross-document reference resolver: an
`AnchorStore` with lazy group-keyed loading (`fetchRefs` / `fetchAllRefs`)
and a multi-stage query pipeline (`queryRefs` / `_queryRefs`), plus the
`addMethodVariants` registration operation and the nested `filterByStatus`
status policy.

Python dictionaries are modelled as insertion-ordered association lists,
anchors as immutable records, and the external collaborators (the `config`
module, `linkTextVariations`, `filterObsoletes`, the backing group files)
as explicit parameters.  Optional string arguments are `Option String`,
and Python truthiness of such an argument (`if text:`) is modelled by
`optTruthy`, which sends both `none` and `some ""` to `none`.
-/

set_option autoImplicit false

/-- One anchor record, as decoded from the anchor storage format.  The field
`type_` models the Python key `type` and `export_` the key `export`
(both are Lean keywords); `level` is kept as a string, as in the storage
format, and levels are compared with the string order, as Python `max`
compares them. -/
structure Anchor where
  type_ : String
  spec : String
  shortname : String
  level : String
  status : String
  url : String
  export_ : Bool
  normative : Bool
  for_ : List String
  deriving DecidableEq, Repr

/-- RefWrapper from `RefWrapper.py`: a linking text paired with the anchor it
is keyed by.  The query pipeline accesses anchors only through this wrapper. -/
structure RefWrapper where
  text : String
  ref : Anchor
  deriving DecidableEq, Repr

def RefWrapper.type_ (w : RefWrapper) : String := w.ref.type_

def RefWrapper.spec (w : RefWrapper) : String := w.ref.spec

def RefWrapper.shortname (w : RefWrapper) : String := w.ref.shortname

def RefWrapper.level (w : RefWrapper) : String := w.ref.level

def RefWrapper.status (w : RefWrapper) : String := w.ref.status

def RefWrapper.url (w : RefWrapper) : String := w.ref.url

def RefWrapper.export_ (w : RefWrapper) : Bool := w.ref.export_

def RefWrapper.for_ (w : RefWrapper) : List String := w.ref.for_

/-- Entry of the spec-metadata dictionary `self.specs`; only the
`current_url` key is consulted by this module, through a pair of
defaulting dictionary lookups on `ref.spec` and then `current_url`. -/
structure SpecEntry where
  current_url : Option String := none
  deriving DecidableEq, Repr

/-- Value stored in the method-variant table:
`{"args":[args], "for":[fors], "shortname": shortname}`. -/
structure MethodVariant where
  args : List String
  for_ : List String
  shortname : String
  deriving DecidableEq, Repr

/-- Python dict assignment `m[k] = v` on an insertion-ordered dictionary
modelled as an association list: replace the value in place if the key is
present, append the pair otherwise. -/
def dictSet {α : Type} (m : List (String × α)) (k : String) (v : α) :
    List (String × α) :=
  match m.lookup k with
  | some _ => m.map (fun p => if p.1 == k then (k, v) else p)
  | none => m ++ [(k, v)]

/-- Python `m.update(new)`: fold `dictSet` over the entries of `new`. -/
def dictUpdate {α : Type} (m new : List (String × α)) : List (String × α) :=
  new.foldl (fun acc p => dictSet acc p.1 p.2) m

/-- Python truthiness of an optional string argument: `None` and `""` are
falsy, any other string is truthy (normalised to `some`). -/
def optTruthy (o : Option String) : Option String :=
  match o with
  | none => none
  | some s => if s = "" then none else some s

/-- Python `args.split(",")`, implemented structurally over the character
list so that concrete instances evaluate inside the kernel; the empty
string splits to `[""]`, as in Python. -/
def splitOnCommaAux (acc : List Char) : List Char → List String
  | [] => [String.mk acc.reverse]
  | c :: cs =>
    if c = ',' then String.mk acc.reverse :: splitOnCommaAux [] cs
    else splitOnCommaAux (c :: acc) cs

/-- Python `s.split(",")` for the comma separator. -/
def splitOnComma (s : String) : List String :=
  splitOnCommaAux [] s.data

/-- Python `s.strip()`: drop whitespace characters from both ends
(character-list implementation of `String.trim`). -/
def trimStr (s : String) : String :=
  String.mk
    (((s.data.dropWhile Char.isWhitespace).reverse.dropWhile
        Char.isWhitespace).reverse)

/-- Python `s.lower()` (character-list implementation of
`String.toLower`). -/
def toLowerStr (s : String) : String :=
  String.mk (s.data.map Char.toLower)

/-- Python `text.endswith("()")` (character-list implementation). -/
def strEndsWithParens (s : String) : Bool :=
  match s.data.reverse with
  | c1 :: c2 :: _ => c1 = ')' && c2 = '('
  | _ => false

/-- Python string comparison `a < b`: lexicographic on code points
(character-list implementation of the String order). -/
def ltChars : List Char → List Char → Bool
  | [], [] => false
  | [], _ :: _ => true
  | _ :: _, [] => false
  | a :: as, b :: bs =>
    if a < b then true else if b < a then false else ltChars as bs

/-- State of one `RefSource` instance: the `__slots__` fields that this
module reads or writes.  `refs` models `self._refs`, `methods` the
method-variant table, `fors` the for-index, `specs` / `ignoredSpecs` /
`replacedSpecs` the spec metadata and `loadedAnchorGroups` the set of
already-loaded lazy groups. -/
structure RefSource where
  source : String
  refs : List (String × List Anchor) := []
  methods : List (String × List (String × MethodVariant)) := []
  fors : List (String × List String) := []
  specs : List (String × SpecEntry) := []
  ignoredSpecs : List String := []
  replacedSpecs : List (String × String) := []
  loadedAnchorGroups : List String := []
  deriving DecidableEq, Repr

/-- `RefSource.lazyLoadedSources`: the class attribute listing which sources
use lazy loading. -/
def lazyLoadedSources : List String := ["foreign"]

/-- External collaborators from the `config` module and `refs/utils.py`,
made explicit: the link-type taxonomy, the status vocabularies, the
group-derivation function and the linking-text variation generator. -/
structure Config where
  dfnTypes : List String
  linkTypeToDfnType : List (String × List String)
  linkStatuses : List String
  lowercaseTypes : List String
  groupFromKey : String → String
  linkTextVariations : String → Option String → List String

/-- `config.refStatus`: the two lifecycle statuses. -/
def refStatus : List String := ["current", "snapshot"]

/-- The nested `filterByStatus(refs, status)` of `_queryRefs`, closed over
`self.specs` and the config vocabularies.  Returns `none` where the Python
code executes a bare `raise` (an unhandled fatal fault). -/
def filterByStatus (specs : List (String × SpecEntry))
    (linkStatuses : List String) (refs : List RefWrapper) (status : String) :
    Option (List RefWrapper) :=
  if status ∈ refStatus then
    if status = "current" then
      some (refs.filter (fun ref =>
        ref.status == "current" ||
          (ref.status == "snapshot" &&
            ((specs.lookup ref.spec).getD {}).current_url.isNone)))
    else if status = "snapshot" then
      let snapshotSpecs :=
        (refs.filter (fun ref => ref.status == "snapshot")).map RefWrapper.spec
      some (refs.filter (fun ref =>
        ref.status == "snapshot" ||
          (ref.status == "current" && !(snapshotSpecs.contains ref.spec))))
    else
      none
  else if status ∈ linkStatuses then
    some (refs.filter (fun x => x.status == status))
  else
    none

/-- The backing anchor store: the list of file names in the
`spec-data/anchors` directory (as enumerated by `os.walk`) and, per file
name, its decoded `{key: [anchor]}` content.  Modelled from the spec:
`config.retrieveDataFile` and `decodeAnchors` are external to this module
under test, and per the spec they are best-effort — a missing or unreadable
group file (`content = none`) is treated as a group with zero anchors, not
as a fatal error. -/
structure Backing where
  files : List String
  content : String → Option (List (String × List Anchor))

/-- The group tag a file name `anchors-XY.data` carries: the regex
`anchors-(.{2})` captures the two characters after the dash. -/
def groupOfFile (file : String) : String :=
  String.mk ((file.data.drop 8).take 2)

/-- `RefSource.fetchRefs(key)`: the safe, lazy-loading version of
`self._refs[key]`.  Returns the anchors for `key`, the updated state and
the list of group files read by this call. -/
def fetchRefs (b : Backing) (cfg : Config) (rs : RefSource) (key : String) :
    List Anchor × RefSource × List String :=
  match rs.refs.lookup key with
  | some v => (v, rs, [])
  | none =>
    if rs.source ∉ lazyLoadedSources then ([], rs, [])
    else
      let group := cfg.groupFromKey key
      if group ∈ rs.loadedAnchorGroups then ([], rs, [])
      else
        let decoded := (b.content ("anchors-" ++ group ++ ".data")).getD []
        let rs' : RefSource :=
          { rs with
            refs := dictUpdate rs.refs decoded
            loadedAnchorGroups := rs.loadedAnchorGroups ++ [group] }
        ((rs'.refs.lookup key).getD [], rs', [group])

/-- The `for root, dirs, files in os.walk(path)` loop body of
`fetchAllRefs`: walk the group files in order, loading and merging every
group that is not yet loaded.  Returns the final state and the list of
groups read. -/
def loadGroups (b : Backing) (rs : RefSource) :
    List String → RefSource × List String
  | [] => (rs, [])
  | file :: rest =>
    let group := groupOfFile file
    if group ∈ rs.loadedAnchorGroups then loadGroups b rs rest
    else
      let decoded := (b.content file).getD []
      let rs' : RefSource :=
        { rs with
          refs := dictUpdate rs.refs decoded
          loadedAnchorGroups := rs.loadedAnchorGroups ++ [group] }
      let res := loadGroups b rs' rest
      (res.1, group :: res.2)

/-- `RefSource.fetchAllRefs()`: load everything at once.  Returns
`self._refs.items()`, the updated state and the list of group files read. -/
def fetchAllRefs (b : Backing) (rs : RefSource) :
    List (String × List Anchor) × RefSource × List String :=
  if rs.source ∉ lazyLoadedSources then (rs.refs, rs, [])
  else
    let res := loadGroups b rs b.files
    (res.1.refs, res.1, res.2)

/-- The regex `([^(]+)\((.*)\)` of `addMethodVariants`, applied with
`re.match`: a non-empty run of characters other than the opening
parenthesis, the opening parenthesis, then a greedy capture that must be
followed by a closing parenthesis — so the second group extends to the
last closing parenthesis of the string. -/
def parseMethodSig (s : String) : Option (String × String) :=
  let cs := s.data
  let name := cs.takeWhile (fun c => c ≠ '(')
  let rest := cs.dropWhile (fun c => c ≠ '(')
  match name, rest with
  | [], _ => none
  | _, [] => none
  | _, _ :: rest' =>
    match rest'.reverse.dropWhile (fun c => c ≠ ')') with
    | [] => none
    | _ :: revArgs => some (String.mk name, String.mk revArgs.reverse)

/-- `RefSource.addMethodVariants(methodSig, forVals, shortname)`. -/
def addMethodVariants (rs : RefSource) (methodSig : String)
    (forVals : List String) (shortname : String) : RefSource :=
  match parseMethodSig methodSig with
  | none => rs
  | some (name, args) =>
    let arglessMethodSig := name ++ "()"
    let variants := (rs.methods.lookup arglessMethodSig).getD []
    let variants1 :=
      match variants.lookup methodSig with
      | some _ => variants
      | none =>
        variants ++
          [(methodSig,
            ({ args := (splitOnComma args).map trimStr
               for_ := []
               shortname := shortname } : MethodVariant))]
    let variants2 := variants1.map (fun (p : String × MethodVariant) =>
      if p.1 == methodSig then (p.1, { p.2 with for_ := p.2.for_ ++ forVals })
      else p)
    { rs with methods := dictSet rs.methods arglessMethodSig variants2 }

/-- The URL dedup loop of `_queryRefs`, generalised over the set of urls
already seen (`seenUrls`). -/
def dedupAux (seen : List String) : List RefWrapper → List RefWrapper
  | [] => []
  | r :: rest =>
    if r.url ∈ seen then dedupAux seen rest
    else r :: dedupAux (r.url :: seen) rest

/-- The URL dedup stage of `_queryRefs`: walk the candidates in order and
keep a candidate only if its `url` was not seen before. -/
def dedupByUrl (refs : List RefWrapper) : List RefWrapper :=
  dedupAux [] refs

/-- Python `max` over a non-empty list of levels (string comparison); on the
empty list, which the code never reaches, returns `""`. -/
def maxLevel : List String → String
  | [] => ""
  | x :: xs => xs.foldl (fun a b => if ltChars a.data b.data then b else a) x

/-- First-occurrence deduplication of a key list, generalised over the keys
already seen; models the iteration order of `dict.items()` for a dict whose
keys were inserted in list order. -/
def dedupKeys (seen : List String) : List String → List String
  | [] => []
  | x :: xs =>
    if x ∈ seen then dedupKeys seen xs
    else x :: dedupKeys (x :: seen) xs

/-- The level-resolution stage of `_queryRefs`: group the surviving
candidates by shortname; per shortname keep the candidates at the maximal
level, taken among the snapshot-status candidates when the query status is
`"snapshot"` and such candidates exist for that shortname, and among all of
that shortname's candidates otherwise. -/
def levelResolve (status : Option String) (refs : List RefWrapper) :
    List RefWrapper :=
  ((dedupKeys [] (refs.map RefWrapper.shortname)).map (fun sn =>
    let snRefs := refs.filter (fun r => r.shortname == sn)
    let snapRefs := snRefs.filter (fun r =>
      status == some "snapshot" && r.status == "snapshot")
    if status == some "snapshot" && !snapRefs.isEmpty then
      snapRefs.filter (fun r => r.level == maxLevel (snapRefs.map RefWrapper.level))
    else
      snRefs.filter (fun r => r.level == maxLevel (snRefs.map RefWrapper.level)))).flatten

/-- Modelled from the spec: `filterObsoletes` lives in `refs/utils.py`,
which is not part of the sources under test.  Per the spec it drops
candidates whose spec is marked ignored, and candidates of a replaced spec
whose replacement is also present among the candidates. -/
def filterObsoletes (replacedSpecs : List (String × String))
    (ignoredSpecs : List String) (refs : List RefWrapper) : List RefWrapper :=
  let present := refs.map RefWrapper.spec
  refs.filter (fun r =>
    !(ignoredSpecs.contains r.spec) &&
      !(replacedSpecs.any (fun p => p.1 == r.spec && present.contains p.2)))

/-- The arguments of one query, minus the `exact` / `error` flags that the
two entry points thread separately. -/
structure Query where
  text : Option String := none
  spec : Option String := none
  linkType : Option String := none
  linkFor : Option String := none
  linkForHint : Option String := none
  status : Option String := none
  statusHint : Option String := none
  export_ : Option Bool := none
  ignoreObsoletes : Bool := false
  deriving DecidableEq, Repr

/-- `textRefsIterator(texts)`: fetch the anchors keyed to each text in turn,
wrapping each anchor with the text it was found under, and threading the
lazily-loading state. -/
def textRefsList (b : Backing) (cfg : Config) (rs : RefSource) :
    List String → List RefWrapper × RefSource
  | [] => ([], rs)
  | t :: ts =>
    let (anchors, rs1, _) := fetchRefs b cfg rs t
    let (rest, rs2) := textRefsList b cfg rs1 ts
    (anchors.map (fun a => RefWrapper.mk t a) ++ rest, rs2)

/-- `forRefsIterator(targetFors)`: fetch the anchors keyed to any text
registered under each target for-value. -/
def forRefsList (b : Backing) (cfg : Config) (rs : RefSource) :
    List String → List RefWrapper × RefSource
  | [] => ([], rs)
  | f :: fs =>
    let (ws, rs1) := textRefsList b cfg rs ((rs.fors.lookup f).getD [])
    let (rest, rs2) := forRefsList b cfg rs1 fs
    (ws ++ rest, rs2)

/-- `allRefsIterator()`: wrap every anchor of the whole (fully loaded)
corpus. -/
def allRefsList (b : Backing) (rs : RefSource) :
    List RefWrapper × RefSource :=
  let (items, rs1, _) := fetchAllRefs b rs
  ((items.map (fun kg => kg.2.map (fun a => RefWrapper.mk kg.1 a))).flatten, rs1)

/-- The seed-set selection of `_queryRefs`: the initial list of refs to
query, depending on `text` / `exact` / `linkFor`. -/
def seedRefs (b : Backing) (cfg : Config) (rs : RefSource) (q : Query)
    (exact : Bool) : List RefWrapper × RefSource :=
  match optTruthy q.text with
  | some text =>
    if exact then textRefsList b cfg rs [text]
    else
      let t1 := cfg.linkTextVariations text q.linkType
      let t2 :=
        if strEndsWithParens text && (rs.methods.lookup text).isSome then
          t1 ++ ((rs.methods.lookup text).getD []).map Prod.fst
        else t1
      let lcOK :=
        match q.linkType with
        | none => true
        | some lt => cfg.lowercaseTypes.contains lt
      let t3 :=
        if lcOK && (toLowerStr text != text) then t2 ++ t2.map toLowerStr
        else t2
      textRefsList b cfg rs t3
  | none =>
    match optTruthy q.linkFor with
    | some lf => forRefsList b cfg rs [lf]
    | none => allRefsList b rs

/-- The result of one resolution attempt: the final candidate list, the
stage at which the pipeline ran out of candidates (or `none` on success)
and the messages emitted through the external `linkerror` channel. -/
structure QueryOutcome where
  refs : List RefWrapper
  stage : Option String
  errors : List String
  deriving DecidableEq, Repr

/-- The filter pipeline of `_queryRefs` after the seed set has been built.
It only reads `self.specs` / `self.replacedSpecs` / `self.ignoredSpecs` and
the config, never the mutable anchor store, so it is split here into one
function per stage, in the order of the source; `none` models the unhandled
`raise` of `filterByStatus`.  `obsoletesStage` covers the obsolescence
filter, the soft `linkForHint` narrowing, the URL dedup and the level
resolution, ending with the success return `(refs, None)`. -/
def obsoletesStage (replacedSpecs : List (String × String))
    (ignoredSpecs : List String) (q : Query) (refs6 : List RefWrapper) :
    Option QueryOutcome :=
  let refs7 : List RefWrapper :=
    if q.ignoreObsoletes && (optTruthy q.spec).isNone then
      filterObsoletes replacedSpecs ignoredSpecs refs6
    else refs6
  if refs7.isEmpty then some ⟨refs7, some "ignored-specs", []⟩ else
  let refs8 : List RefWrapper :=
    match optTruthy q.linkForHint with
    | some hint =>
      let tempRefs := refs7.filter (fun x => x.for_.contains hint)
      if tempRefs.isEmpty then refs7 else tempRefs
    | none => refs7
  some ⟨levelResolve q.status (dedupByUrl refs8), none, []⟩

/-- The lenient `statusHint` narrowing: applied only when `status is None`,
and committed only when the narrowed result is non-empty; an invalid hint
reaches the same `raise` as an invalid status. -/
def statusHintStage (specs : List (String × SpecEntry))
    (replacedSpecs : List (String × String)) (ignoredSpecs : List String)
    (cfg : Config) (q : Query) (refs5 : List RefWrapper) :
    Option QueryOutcome :=
  match (match q.status, optTruthy q.statusHint with
         | none, some sh =>
           (filterByStatus specs cfg.linkStatuses refs5 sh).map
             (fun (tempRefs : List RefWrapper) =>
               if tempRefs.isEmpty then refs5 else tempRefs)
         | _, _ => some refs5) with
  | none => none
  | some refs6 => obsoletesStage replacedSpecs ignoredSpecs q refs6

/-- The `status` filter stage (`if status: refs = filterByStatus(...)`). -/
def statusStage (specs : List (String × SpecEntry))
    (replacedSpecs : List (String × String)) (ignoredSpecs : List String)
    (cfg : Config) (q : Query) (refs4 : List RefWrapper) :
    Option QueryOutcome :=
  match (match optTruthy q.status with
         | some s => filterByStatus specs cfg.linkStatuses refs4 s
         | none => some refs4) with
  | none => none
  | some refs5 =>
    if refs5.isEmpty then some ⟨refs5, some "status", []⟩
    else statusHintStage specs replacedSpecs ignoredSpecs cfg q refs5

/-- The `linkFor` filter stage (`"/"` selects context-free anchors). -/
def forStage (specs : List (String × SpecEntry))
    (replacedSpecs : List (String × String)) (ignoredSpecs : List String)
    (cfg : Config) (q : Query) (refs3 : List RefWrapper) :
    Option QueryOutcome :=
  let refs4 : List RefWrapper :=
    match q.linkFor with
    | some s =>
      if s = "/" then refs3.filter (fun x => x.for_.isEmpty)
      else if s = "" then refs3
      else refs3.filter (fun x => x.for_.contains s)
    | none => refs3
  if refs4.isEmpty then some ⟨refs4, some "for", []⟩
  else statusStage specs replacedSpecs ignoredSpecs cfg q refs4

/-- The `spec` filter stage (spec or shortname must equal the argument). -/
def specStage (specs : List (String × SpecEntry))
    (replacedSpecs : List (String × String)) (ignoredSpecs : List String)
    (cfg : Config) (q : Query) (refs2 : List RefWrapper) :
    Option QueryOutcome :=
  let refs3 : List RefWrapper :=
    match optTruthy q.spec with
    | some s => refs2.filter (fun x => x.spec == s || x.shortname == s)
    | none => refs2
  if refs3.isEmpty then some ⟨refs3, some "spec", []⟩
  else forStage specs replacedSpecs ignoredSpecs cfg q refs3

/-- The `export` filter stage (`if export is not None`). -/
def exportStage (specs : List (String × SpecEntry))
    (replacedSpecs : List (String × String)) (ignoredSpecs : List String)
    (cfg : Config) (q : Query) (refs1 : List RefWrapper) :
    Option QueryOutcome :=
  let refs2 : List RefWrapper :=
    match q.export_ with
    | none => refs1
    | some e => refs1.filter (fun x => x.export_ == e)
  if refs2.isEmpty then some ⟨refs2, some "export", []⟩
  else specStage specs replacedSpecs ignoredSpecs cfg q refs2

/-- The emptiness check `if not refs: return refs, "type"` that follows the
link-type filter. -/
def typeCheckStage (specs : List (String × SpecEntry))
    (replacedSpecs : List (String × String)) (ignoredSpecs : List String)
    (cfg : Config) (q : Query) (refs1 : List RefWrapper) :
    Option QueryOutcome :=
  if refs1.isEmpty then some ⟨refs1, some "type", []⟩
  else exportStage specs replacedSpecs ignoredSpecs cfg q refs1

/-- The `linkType` filter stage: a known definition type filters directly,
a known link type resolves through `config.linkTypeToDfnType`, and an
unknown link type reports (on the final attempt only) and yields
`([], "type")`. -/
def typeStage (specs : List (String × SpecEntry))
    (replacedSpecs : List (String × String)) (ignoredSpecs : List String)
    (cfg : Config) (q : Query) (error : Bool) (refs0 : List RefWrapper) :
    Option QueryOutcome :=
  match optTruthy q.linkType with
  | none => typeCheckStage specs replacedSpecs ignoredSpecs cfg q refs0
  | some lt =>
    if lt ∈ cfg.dfnTypes then
      typeCheckStage specs replacedSpecs ignoredSpecs cfg q
        (refs0.filter (fun x => [lt].contains x.type_))
    else
      match cfg.linkTypeToDfnType.lookup lt with
      | some linkTypes =>
        typeCheckStage specs replacedSpecs ignoredSpecs cfg q
          (refs0.filter (fun x => linkTypes.contains x.type_))
      | none =>
        some ⟨[], some "type",
          if error then
            ["Unknown link type " ++ (optTruthy q.linkType).getD ""]
          else []⟩

/-- The whole post-seed pipeline: the seed emptiness check
(`if not refs: return refs, "text"`) followed by the filter stages. -/
def queryPipeline (specs : List (String × SpecEntry))
    (replacedSpecs : List (String × String)) (ignoredSpecs : List String)
    (cfg : Config) (q : Query) (error : Bool) (refs0 : List RefWrapper) :
    Option QueryOutcome :=
  if refs0.isEmpty then some ⟨refs0, some "text", []⟩
  else typeStage specs replacedSpecs ignoredSpecs cfg q error refs0

/-- `RefSource._queryRefs(...)`: build the seed set (possibly loading lazy
groups) and run the filter pipeline over it.  `none` models an uncaught
exception. -/
def _queryRefs (b : Backing) (cfg : Config) (rs : RefSource) (q : Query)
    (exact : Bool) (error : Bool) : Option (QueryOutcome × RefSource) :=
  let seeded := seedRefs b cfg rs q exact
  match queryPipeline seeded.2.specs seeded.2.replacedSpecs
      seeded.2.ignoredSpecs cfg q error seeded.1 with
  | none => none
  | some o => some (o, seeded.2)

/-- Python truthiness of the returned failure stage
(`if error and not exact:` in `queryRefs`). -/
def pyTruthyStage : Option String → Bool
  | none => false
  | some s => !(s == "")

/-- `RefSource.queryRefs(...)`: run `_queryRefs` with `exact=True` first;
if that failed and the caller did not request exact matching, rerun it with
all remaining flags at their defaults (`exact=False`, `error=False`). -/
def queryRefs (b : Backing) (cfg : Config) (rs : RefSource) (q : Query)
    (exact : Bool) : Option (QueryOutcome × RefSource) :=
  match _queryRefs b cfg rs q true false with
  | none => none
  | some (o, rs1) =>
    if pyTruthyStage o.stage && !exact then _queryRefs b cfg rs1 q false false
    else some (o, rs1)

/-- Specification-side restatement of the URL dedup stage, following the
words of the spec: keep each candidate whose url was not seen earlier, and
drop every later candidate carrying an already-kept url. -/
def firstOccurrences : List RefWrapper → List RefWrapper
  | [] => []
  | r :: rest =>
    r :: firstOccurrences (rest.filter (fun x => x.url != r.url))
termination_by l => l.length
decreasing_by
  simp only [List.length_cons]
  exact Nat.lt_succ_of_le (List.length_filter_le _ rest)

/-- Concrete corpus, configuration and backing store used by the witness
and counterexample instances below. -/
def cfgT : Config :=
  { dfnTypes := ["dfn"]
    linkTypeToDfnType := [("idl", ["method"])]
    linkStatuses := ["local"]
    lowercaseTypes := ["dfn"]
    groupFromKey := fun k => String.mk (k.data.take 2)
    linkTextVariations := fun t _ => [t] }

def aT : Anchor := ⟨"dfn", "spec1", "spec1", "1", "current", "u1", true, true, []⟩

def rsT : RefSource := { source := "test", refs := [("foo", [aT])] }

def bT : Backing := ⟨[], fun _ => none⟩

/-! ### Helper lemmas on association lists -/

theorem lookup_mapIf {α : Type} (l : List (String × α)) (k : String)
    (f : α → α) :
    (l.map (fun p => if p.1 == k then (k, f p.2) else p)).lookup k =
      (l.lookup k).map f := by
  induction l with
  | nil => rfl
  | cons p t ih =>
    by_cases h : p.1 = k
    · have h1 : (p.1 == k) = true := beq_iff_eq.mpr h
      have h2 : (k == p.1) = true := beq_iff_eq.mpr h.symm
      rw [List.map_cons, if_pos h1]
      simp [List.lookup, h2, ih]
    · have h1 : (p.1 == k) = false := beq_eq_false_iff_ne.mpr h
      have h2 : (k == p.1) = false := beq_eq_false_iff_ne.mpr (Ne.symm h)
      rw [List.map_cons, if_neg]
      · simp only [List.lookup, h2]
        exact ih
      · simp [h1]

theorem lookup_append_single {α : Type} (l : List (String × α)) (k : String)
    (v : α) (h : l.lookup k = none) : (l ++ [(k, v)]).lookup k = some v := by
  induction l with
  | nil => simp [List.lookup]
  | cons p t ih =>
    by_cases hk : k = p.1
    · have h1 : (k == p.1) = true := beq_iff_eq.mpr hk
      simp [List.lookup, h1] at h
    · have h1 : (k == p.1) = false := beq_eq_false_iff_ne.mpr hk
      simp only [List.lookup, h1] at h
      rw [List.cons_append, List.lookup]
      simp only [h1]
      exact ih h

theorem dictSet_lookup {α : Type} (m : List (String × α)) (k : String)
    (v : α) : (dictSet m k v).lookup k = some v := by
  unfold dictSet
  cases hm : m.lookup k with
  | none => exact lookup_append_single m k v hm
  | some w =>
    have h2 := lookup_mapIf m k (fun _ => v)
    rw [hm] at h2
    simpa using h2

theorem lookup_mapFor (l : List (String × MethodVariant)) (k : String)
    (forVals : List String) :
    (l.map (fun p =>
      if p.1 == k then (p.1, { p.2 with for_ := p.2.for_ ++ forVals })
      else p)).lookup k =
      (l.lookup k).map (fun v => { v with for_ := v.for_ ++ forVals }) := by
  induction l with
  | nil => rfl
  | cons p t ih =>
    by_cases h : p.1 = k
    · have h1 : (p.1 == k) = true := beq_iff_eq.mpr h
      have h2 : (k == p.1) = true := beq_iff_eq.mpr h.symm
      rw [List.map_cons, if_pos h1]
      simp [List.lookup, h2, ih]
    · have h1 : (p.1 == k) = false := beq_eq_false_iff_ne.mpr h
      have h2 : (k == p.1) = false := beq_eq_false_iff_ne.mpr (Ne.symm h)
      rw [List.map_cons, if_neg]
      · simp only [List.lookup, h2]
        exact ih
      · simp [h1]

/-- C9: `addMethodVariants` with a non-parsing argument is a no-op; with a
parsing signature it records the full signature under the argument-less key
`name()` on first registration with the parsed arguments, the supplied
contexts and the given shortname, and on a repeated registration appends
the supplied contexts to the existing context list without deduplication,
leaving the recorded arguments and shortname unchanged. -/
theorem addMethodVariants_spec (rs : RefSource) (methodSig : String)
    (forVals : List String) (shortname name args : String) :
    (parseMethodSig methodSig = none →
      addMethodVariants rs methodSig forVals shortname = rs)
  ∧ (parseMethodSig methodSig = some (name, args) →
      (((rs.methods.lookup (name ++ "()")).getD []).lookup methodSig = none →
        ((((addMethodVariants rs methodSig forVals shortname).methods.lookup
            (name ++ "()")).getD []).lookup methodSig) =
          some { args := (splitOnComma args).map trimStr
                 for_ := forVals
                 shortname := shortname })
      ∧ ∀ v : MethodVariant,
        ((rs.methods.lookup (name ++ "()")).getD []).lookup methodSig = some v →
          ((((addMethodVariants rs methodSig forVals shortname).methods.lookup
              (name ++ "()")).getD []).lookup methodSig) =
            some { v with for_ := v.for_ ++ forVals }) := by
  constructor
  · intro hp
    unfold addMethodVariants
    rw [hp]
  · intro hp
    constructor
    · intro hnone
      simp only [addMethodVariants, hp, hnone, dictSet_lookup, Option.getD_some]
      rw [lookup_mapFor, lookup_append_single _ _ _ hnone]
      simp
    · intro v hv
      simp only [addMethodVariants, hp, hv, dictSet_lookup, Option.getD_some]
      rw [lookup_mapFor, hv]
      rfl

/-- Witness for C9 at a concrete input: registering `foo(bar, baz)` twice
accumulates the duplicate context. -/
theorem addMethodVariants_spec_witness :
    ((((addMethodVariants
        (addMethodVariants { source := "test" } "foo(bar, baz)" ["ctx1"] "short")
        "foo(bar, baz)" ["ctx1"] "short").methods.lookup "foo()").getD
          []).lookup "foo(bar, baz)") =
      some { args := ["bar", "baz"], for_ := ["ctx1", "ctx1"],
             shortname := "short" } := by
  have h := (addMethodVariants_spec
    (addMethodVariants { source := "test" } "foo(bar, baz)" ["ctx1"] "short")
    "foo(bar, baz)" ["ctx1"] "short" "foo" "bar, baz").2
  have h2 := (h (by decide)).2
    { args := ["bar", "baz"], for_ := ["ctx1"], shortname := "short" }
    (by decide)
  exact h2

/-- C3: `filterByStatus` with status `"current"` keeps exactly the refs with
status `"current"` plus those with status `"snapshot"` whose spec has no
known current URL in the spec metadata; with `"snapshot"` it keeps exactly
the refs with status `"snapshot"` plus those with status `"current"` whose
spec has no snapshot-status ref among the candidate list; with any other
recognized link status it keeps exactly the refs whose status equals it. -/
theorem filterByStatus_spec (specs : List (String × SpecEntry))
    (linkStatuses : List String) (refs : List RefWrapper) (status : String) :
    (status = "current" →
      ∃ kept, filterByStatus specs linkStatuses refs status = some kept ∧
        ∀ r, r ∈ kept ↔ r ∈ refs ∧
          (r.status = "current" ∨
            (r.status = "snapshot" ∧
              ((specs.lookup r.spec).getD {}).current_url = none)))
  ∧ (status = "snapshot" →
      ∃ kept, filterByStatus specs linkStatuses refs status = some kept ∧
        ∀ r, r ∈ kept ↔ r ∈ refs ∧
          (r.status = "snapshot" ∨
            (r.status = "current" ∧
              ¬ ∃ s, s ∈ refs ∧ s.status = "snapshot" ∧ s.spec = r.spec)))
  ∧ (status ≠ "current" → status ≠ "snapshot" → status ∈ linkStatuses →
      ∃ kept, filterByStatus specs linkStatuses refs status = some kept ∧
        ∀ r, r ∈ kept ↔ r ∈ refs ∧ r.status = status) := by
  refine ⟨?_, ?_, ?_⟩
  · intro h
    subst h
    have hval : filterByStatus specs linkStatuses refs "current" =
        some (refs.filter (fun ref =>
          ref.status == "current" ||
            (ref.status == "snapshot" &&
              ((specs.lookup ref.spec).getD {}).current_url.isNone))) := by
      unfold filterByStatus
      rw [if_pos (by simp [refStatus]), if_pos rfl]
    refine ⟨_, hval, ?_⟩
    intro r
    simp [List.mem_filter, Option.isNone_iff_eq_none]
  · intro h
    subst h
    have hval : filterByStatus specs linkStatuses refs "snapshot" =
        some (refs.filter (fun ref =>
          ref.status == "snapshot" ||
            (ref.status == "current" &&
              !(((refs.filter (fun ref => ref.status == "snapshot")).map
                  RefWrapper.spec).contains ref.spec)))) := by
      unfold filterByStatus
      rw [if_pos (by simp [refStatus]), if_neg (by decide), if_pos rfl]
    refine ⟨_, hval, ?_⟩
    intro r
    simp [List.mem_filter]
  · intro h1 h2 h3
    have hne : ¬ status ∈ refStatus := by simp [refStatus, h1, h2]
    have hval : filterByStatus specs linkStatuses refs status =
        some (refs.filter (fun x => x.status == status)) := by
      unfold filterByStatus
      rw [if_neg hne, if_pos h3]
    refine ⟨_, hval, ?_⟩
    intro r
    simp [List.mem_filter]

/-- Witness for C3 at a concrete input: with status `"current"`, a
snapshot-status ref whose spec has no current URL is kept. -/
theorem filterByStatus_spec_witness :
    ∃ kept,
      filterByStatus [("s1", { current_url := none })] ["local"]
        [⟨"x", ⟨"dfn", "s1", "s1", "1", "snapshot", "u", true, true, []⟩⟩]
        "current" = some kept ∧
      ∀ r, r ∈ kept ↔
        r ∈ [(⟨"x", ⟨"dfn", "s1", "s1", "1", "snapshot", "u", true, true,
          []⟩⟩ : RefWrapper)] ∧
        (r.status = "current" ∨
          (r.status = "snapshot" ∧
            (([(("s1" : String), ({ current_url := none } : SpecEntry))].lookup
              r.spec).getD {}).current_url = none)) :=
  (filterByStatus_spec [("s1", { current_url := none })] ["local"]
    [⟨"x", ⟨"dfn", "s1", "s1", "1", "snapshot", "u", true, true, []⟩⟩]
    "current").1 rfl

theorem dedupAux_eq_firstOccurrences (refs : List RefWrapper)
    (seen : List String) :
    dedupAux seen refs =
      firstOccurrences (refs.filter (fun x => !(seen.contains x.url))) := by
  induction refs generalizing seen with
  | nil => simp [dedupAux, firstOccurrences]
  | cons r rest ih =>
    by_cases h : r.url ∈ seen
    · have h1 : dedupAux seen (r :: rest) = dedupAux seen rest := by
        simp [dedupAux, h]
      have h2 : (r :: rest).filter (fun x => !(seen.contains x.url)) =
          rest.filter (fun x => !(seen.contains x.url)) :=
        List.filter_cons_of_neg (by simp [h])
      rw [h1, h2, ih]
    · have h1 : dedupAux seen (r :: rest) =
          r :: dedupAux (r.url :: seen) rest := by
        simp [dedupAux, h]
      have h2 : (r :: rest).filter (fun x => !(seen.contains x.url)) =
          r :: rest.filter (fun x => !(seen.contains x.url)) :=
        List.filter_cons_of_pos (by simp [h])
      rw [h1, h2, firstOccurrences, ih, List.filter_filter]
      refine congrArg (r :: firstOccurrences ·) (List.filter_congr ?_)
      intro x _
      simp only [List.contains_cons, Bool.not_or, bne]

/-- C7: the URL dedup stage of the query keeps, in order, only the first
candidate bearing each distinct url and drops all later candidates with an
already-seen url (it computes exactly the first-occurrence sublist); in
particular two anchors with identical url but different linking-text keys
yield only one result. -/
theorem dedupByUrl_spec :
    (∀ refs, dedupByUrl refs = firstOccurrences refs)
  ∧ (∀ a b : RefWrapper, a.url = b.url → dedupByUrl [a, b] = [a]) := by
  constructor
  · intro refs
    have h := dedupAux_eq_firstOccurrences refs []
    simpa [dedupByUrl] using h
  · intro a b h
    simp [dedupByUrl, dedupAux, h]

/-- Witness for C7 at a concrete input: two wrappers with different keys
but one url collapse to the first. -/
theorem dedupByUrl_spec_witness :
    dedupByUrl
      [⟨"a", ⟨"dfn", "s", "s", "1", "current", "u", true, true, []⟩⟩,
       ⟨"b", ⟨"dfn", "s", "s", "1", "current", "u", true, true, []⟩⟩] =
      [⟨"a", ⟨"dfn", "s", "s", "1", "current", "u", true, true, []⟩⟩] :=
  dedupByUrl_spec.2
    ⟨"a", ⟨"dfn", "s", "s", "1", "current", "u", true, true, []⟩⟩
    ⟨"b", ⟨"dfn", "s", "s", "1", "current", "u", true, true, []⟩⟩ rfl

theorem mem_dedupKeys (l : List String) (seen : List String) (a : String) :
    a ∈ dedupKeys seen l ↔ a ∈ l ∧ a ∉ seen := by
  induction l generalizing seen with
  | nil => simp [dedupKeys]
  | cons x xs ih =>
    by_cases hx : x ∈ seen
    · rw [dedupKeys, if_pos hx, ih]
      by_cases hax : a = x
      · subst hax
        simp [hx]
      · simp [hax]
    · rw [dedupKeys, if_neg hx]
      by_cases hax : a = x
      · subst hax
        simp [hx]
      · simp only [List.mem_cons, ih, List.mem_cons]
        constructor
        · rintro (h | ⟨h1, h2⟩)
          · exact absurd h hax
          · exact ⟨Or.inr h1, fun hs => h2 (Or.inr hs)⟩
        · rintro ⟨h1 | h1, h2⟩
          · exact absurd h1 hax
          · exact Or.inr ⟨h1, fun hs => by
              rcases hs with h | h
              · exact hax h
              · exact h2 h⟩

theorem foldl_max_choice (xs : List String) (a : String) :
    xs.foldl (fun a b => if ltChars a.data b.data then b else a) a = a ∨
      xs.foldl (fun a b => if ltChars a.data b.data then b else a) a ∈ xs := by
  induction xs generalizing a with
  | nil => exact Or.inl rfl
  | cons x t ih =>
    rw [List.foldl_cons]
    rcases ih (if ltChars a.data x.data then x else a) with h | h
    · rw [h]
      by_cases hc : ltChars a.data x.data
      · rw [if_pos hc]
        exact Or.inr (List.mem_cons_self x t)
      · rw [if_neg hc]
        exact Or.inl rfl
    · exact Or.inr (List.mem_cons_of_mem x h)

theorem maxLevel_mem (l : List String) (h : l ≠ []) : maxLevel l ∈ l := by
  cases l with
  | nil => exact absurd rfl h
  | cons x xs =>
    rw [maxLevel]
    rcases foldl_max_choice xs x with h1 | h1
    · rw [h1]
      exact List.mem_cons_self x xs
    · exact List.mem_cons_of_mem x h1

/-- C4: the level-resolution stage groups the candidates surviving URL
dedup by shortname and, per shortname, keeps exactly the candidates at the
maximal level among that shortname's snapshot-status candidates when the
query status is exactly `"snapshot"` and at least one snapshot-status
candidate exists for that shortname, and otherwise keeps exactly the
candidates at the maximal level among all of that shortname's candidates
regardless of status; the result is the union across shortnames. -/
theorem levelResolve_spec (status : Option String) (refs : List RefWrapper)
    (r : RefWrapper) :
    r ∈ levelResolve status refs ↔
      r ∈ refs ∧
        (if status = some "snapshot" ∧
            ∃ x, x ∈ refs ∧ x.shortname = r.shortname ∧ x.status = "snapshot"
         then r.status = "snapshot" ∧
           r.level = maxLevel ((refs.filter (fun x =>
             x.shortname == r.shortname && x.status == "snapshot")).map
               RefWrapper.level)
         else
           r.level = maxLevel ((refs.filter (fun x =>
             x.shortname == r.shortname)).map RefWrapper.level)) := by
  have hsnapeq : status = some "snapshot" →
      (refs.filter (fun x => x.shortname == r.shortname)).filter (fun x =>
        status == some "snapshot" && x.status == "snapshot") =
      refs.filter (fun x =>
        x.shortname == r.shortname && x.status == "snapshot") := by
    intro hst
    subst hst
    rw [List.filter_filter]
    apply List.filter_congr
    intro x _
    simp [Bool.and_comm]
  simp only [levelResolve, List.mem_flatten, List.mem_map]
  constructor
  · rintro ⟨l, ⟨sn, hsn, rfl⟩, hr⟩
    split at hr
    case isTrue hb =>
      rw [Bool.and_eq_true, beq_iff_eq] at hb
      obtain ⟨hst, hne⟩ := hb
      rw [List.mem_filter] at hr
      obtain ⟨hsnap, hlev⟩ := hr
      rw [List.mem_filter] at hsnap
      obtain ⟨hsn2, hcnd⟩ := hsnap
      rw [List.mem_filter] at hsn2
      obtain ⟨hrr, hshort⟩ := hsn2
      rw [beq_iff_eq] at hshort
      subst hshort
      rw [Bool.and_eq_true, beq_iff_eq, beq_iff_eq] at hcnd
      refine ⟨hrr, ?_⟩
      rw [if_pos ⟨hst, r, hrr, rfl, hcnd.2⟩]
      refine ⟨hcnd.2, ?_⟩
      rw [beq_iff_eq] at hlev
      rw [← hsnapeq hst]
      exact hlev
    case isFalse hb =>
      rw [List.mem_filter] at hr
      obtain ⟨hsn2, hlev⟩ := hr
      rw [List.mem_filter] at hsn2
      obtain ⟨hrr, hshort⟩ := hsn2
      rw [beq_iff_eq] at hshort
      subst hshort
      refine ⟨hrr, ?_⟩
      rw [if_neg, beq_iff_eq.mp hlev]
      rintro ⟨hst, x, hx, hxsn, hxst⟩
      apply hb
      rw [Bool.and_eq_true, beq_iff_eq]
      refine ⟨hst, ?_⟩
      have hxmem : x ∈ (refs.filter (fun x =>
          x.shortname == r.shortname)).filter (fun x =>
            status == some "snapshot" && x.status == "snapshot") := by
        rw [List.mem_filter, List.mem_filter]
        refine ⟨⟨hx, beq_iff_eq.mpr hxsn⟩, ?_⟩
        rw [Bool.and_eq_true, beq_iff_eq, beq_iff_eq]
        exact ⟨hst, hxst⟩
      have hne2 : (refs.filter (fun x => x.shortname == r.shortname)).filter
          (fun x => status == some "snapshot" && x.status == "snapshot") ≠ [] := by
        intro hemp
        rw [hemp] at hxmem
        exact List.not_mem_nil x hxmem
      simp [hne2]
      exact ⟨x, hx, hst, hxst, hxsn⟩
  · rintro ⟨hrr, hcond⟩
    refine ⟨_, ⟨r.shortname, ?_, rfl⟩, ?_⟩
    · rw [mem_dedupKeys]
      exact ⟨List.mem_map_of_mem RefWrapper.shortname hrr, by simp⟩
    · by_cases hc : status = some "snapshot" ∧
          ∃ x, x ∈ refs ∧ x.shortname = r.shortname ∧ x.status = "snapshot"
      · rw [if_pos hc] at hcond
        obtain ⟨hst, x, hx, hxsn, hxst⟩ := hc
        have hxmem : x ∈ (refs.filter (fun x =>
            x.shortname == r.shortname)).filter (fun x =>
              status == some "snapshot" && x.status == "snapshot") := by
          rw [List.mem_filter, List.mem_filter]
          refine ⟨⟨hx, beq_iff_eq.mpr hxsn⟩, ?_⟩
          rw [Bool.and_eq_true, beq_iff_eq, beq_iff_eq]
          exact ⟨hst, hxst⟩
        rw [if_pos]
        · rw [List.mem_filter, List.mem_filter, List.mem_filter]
          refine ⟨⟨⟨hrr, beq_iff_eq.mpr rfl⟩, ?_⟩, ?_⟩
          · rw [Bool.and_eq_true, beq_iff_eq, beq_iff_eq]
            exact ⟨hst, hcond.1⟩
          · rw [beq_iff_eq, hsnapeq hst]
            exact hcond.2
        · rw [Bool.and_eq_true, beq_iff_eq]
          refine ⟨hst, ?_⟩
          have hne2 : (refs.filter (fun x => x.shortname == r.shortname)).filter
              (fun x => status == some "snapshot" && x.status == "snapshot") ≠ [] := by
            intro hemp
            rw [hemp] at hxmem
            exact List.not_mem_nil x hxmem
          simp [hne2]
          exact ⟨x, hx, hst, hxst, hxsn⟩
      · rw [if_neg hc] at hcond
        rw [if_neg]
        · rw [List.mem_filter, List.mem_filter]
          exact ⟨⟨hrr, beq_iff_eq.mpr rfl⟩, beq_iff_eq.mpr hcond⟩
        · intro hb
          apply hc
          rw [Bool.and_eq_true, beq_iff_eq] at hb
          obtain ⟨hst, hne⟩ := hb
          refine ⟨hst, ?_⟩
          rw [Bool.not_eq_true', List.isEmpty_eq_false_iff_exists_mem] at hne
          obtain ⟨x, hxmem⟩ := hne
          rw [List.mem_filter, List.mem_filter] at hxmem
          obtain ⟨⟨hx, hxsn⟩, hcnd2⟩ := hxmem
          rw [Bool.and_eq_true, beq_iff_eq, beq_iff_eq] at hcnd2
          exact ⟨x, hx, beq_iff_eq.mp hxsn, hcnd2.2⟩

/-- Witness for C4 at a concrete input: with status `"snapshot"` and a
snapshot anchor only at level 1, the level-1 snapshot anchor is kept even
though a level-2 current anchor exists for the same shortname. -/
theorem levelResolve_spec_witness :
    (⟨"x", ⟨"dfn", "spec1", "spec1", "1", "snapshot", "u3", true, true,
      []⟩⟩ : RefWrapper) ∈
      levelResolve (some "snapshot")
        [⟨"x", ⟨"dfn", "spec1", "spec1", "2", "current", "u2", true, true, []⟩⟩,
         ⟨"x", ⟨"dfn", "spec1", "spec1", "1", "snapshot", "u3", true, true,
           []⟩⟩] :=
  (levelResolve_spec (some "snapshot")
    [⟨"x", ⟨"dfn", "spec1", "spec1", "2", "current", "u2", true, true, []⟩⟩,
     ⟨"x", ⟨"dfn", "spec1", "spec1", "1", "snapshot", "u3", true, true, []⟩⟩]
    ⟨"x", ⟨"dfn", "spec1", "spec1", "1", "snapshot", "u3", true, true,
      []⟩⟩).mpr (by decide)

theorem loadGroups_spec (b : Backing) (files : List String) (rs : RefSource) :
    (∀ g, g ∈ rs.loadedAnchorGroups →
      g ∈ (loadGroups b rs files).1.loadedAnchorGroups ∧
        g ∉ (loadGroups b rs files).2)
  ∧ (∀ f, f ∈ files →
      groupOfFile f ∈ (loadGroups b rs files).1.loadedAnchorGroups)
  ∧ (∀ f, f ∈ files → groupOfFile f ∉ rs.loadedAnchorGroups →
      groupOfFile f ∈ (loadGroups b rs files).2)
  ∧ (∀ g, g ∈ (loadGroups b rs files).2 →
      g ∈ (loadGroups b rs files).1.loadedAnchorGroups) := by
  induction files generalizing rs with
  | nil =>
    refine ⟨fun g hg => ⟨hg, by simp [loadGroups]⟩, by simp, by simp,
      by simp [loadGroups]⟩
  | cons file rest ih =>
    by_cases h : groupOfFile file ∈ rs.loadedAnchorGroups
    · have hred : loadGroups b rs (file :: rest) = loadGroups b rs rest := by
        rw [loadGroups, if_pos h]
      rw [hred]
      obtain ⟨ih1, ih2, ih3, ih4⟩ := ih rs
      refine ⟨ih1, ?_, ?_, ih4⟩
      · intro f hf
        rcases List.mem_cons.mp hf with rfl | hf
        · exact (ih1 _ h).1
        · exact ih2 _ hf
      · intro f hf hnl
        rcases List.mem_cons.mp hf with rfl | hf
        · exact absurd h hnl
        · exact ih3 _ hf hnl
    · set rs' : RefSource :=
        { rs with
          refs := dictUpdate rs.refs ((b.content file).getD [])
          loadedAnchorGroups :=
            rs.loadedAnchorGroups ++ [groupOfFile file] } with hrs'
      have hred : loadGroups b rs (file :: rest) =
          ((loadGroups b rs' rest).1,
            groupOfFile file :: (loadGroups b rs' rest).2) := by
        rw [loadGroups, if_neg h]
      rw [hred]
      obtain ⟨ih1, ih2, ih3, ih4⟩ := ih rs'
      have hmem : ∀ g, g ∈ rs.loadedAnchorGroups →
          g ∈ rs'.loadedAnchorGroups := by
        intro g hg
        rw [hrs']
        simp [hg]
      have hgrp : groupOfFile file ∈ rs'.loadedAnchorGroups := by
        rw [hrs']
        simp
      refine ⟨?_, ?_, ?_, ?_⟩
      · intro g hg
        refine ⟨(ih1 g (hmem g hg)).1, ?_⟩
        intro hr
        rcases List.mem_cons.mp hr with rfl | hr
        · exact h hg
        · exact (ih1 g (hmem g hg)).2 hr
      · intro f hf
        rcases List.mem_cons.mp hf with rfl | hf
        · exact (ih1 _ hgrp).1
        · exact ih2 _ hf
      · intro f hf hnl
        rcases List.mem_cons.mp hf with rfl | hf
        · exact List.mem_cons_self _ _
        · by_cases hgf : groupOfFile f = groupOfFile file
          · rw [hgf]
            exact List.mem_cons_self _ _
          · have : groupOfFile f ∉ rs'.loadedAnchorGroups := by
              rw [hrs']
              simp only [List.mem_append, List.mem_singleton]
              rintro (hc | hc)
              · exact hnl hc
              · exact hgf hc
            exact List.mem_cons_of_mem _ (ih3 _ hf this)
      · intro g hg
        rcases List.mem_cons.mp hg with rfl | hg
        · exact (ih1 _ hgrp).1
        · exact ih4 _ hg

/-- C5: for a lazy-loaded corpus, `fetchAllRefs` enumerates every group
file in the backing anchors directory, loads each not-yet-loaded group and
merges it (reading it exactly when it was not yet loaded), and — with the
best-effort collaborator modelled from the spec — a bad or missing group
file does not abort the scan; the full resident map is returned. -/
theorem fetchAllRefs_loads_all (b : Backing) (rs : RefSource)
    (hlazy : rs.source ∈ lazyLoadedSources) :
    (∀ f, f ∈ b.files →
      groupOfFile f ∈ (fetchAllRefs b rs).2.1.loadedAnchorGroups)
  ∧ (∀ f, f ∈ b.files → groupOfFile f ∉ rs.loadedAnchorGroups →
      groupOfFile f ∈ (fetchAllRefs b rs).2.2)
  ∧ (fetchAllRefs b rs).1 = (fetchAllRefs b rs).2.1.refs := by
  have hred : fetchAllRefs b rs =
      ((loadGroups b rs b.files).1.refs, (loadGroups b rs b.files).1,
        (loadGroups b rs b.files).2) := by
    unfold fetchAllRefs
    rw [if_neg (not_not_intro hlazy)]
  rw [hred]
  obtain ⟨_, h2, h3, _⟩ := loadGroups_spec b b.files rs
  exact ⟨h2, h3, rfl⟩


/-- Witness for C5 at a concrete input: a lazy corpus over a single group
file whose content is unreadable still gets its group marked loaded. -/
theorem fetchAllRefs_loads_all_witness :
    groupOfFile "anchors-fo.data" ∈
      (fetchAllRefs ⟨["anchors-fo.data"], fun _ => none⟩
        { source := "foreign" }).2.1.loadedAnchorGroups :=
  (fetchAllRefs_loads_all ⟨["anchors-fo.data"], fun _ => none⟩
    { source := "foreign" } (by decide)).1 "anchors-fo.data" (by decide)

/-- C6: once a group is in the loaded set, neither `fetchRefs` nor
`fetchAllRefs` ever reads its backing file again, and both keep it loaded;
any group a call reads ends up loaded; and `fetchRefs` is idempotent:
calling it twice with the same key returns equal results. -/
theorem fetch_load_once (b : Backing) (cfg : Config) (rs : RefSource)
    (key g : String) :
    (g ∈ rs.loadedAnchorGroups →
      (g ∉ (fetchRefs b cfg rs key).2.2 ∧
        g ∈ (fetchRefs b cfg rs key).2.1.loadedAnchorGroups) ∧
      (g ∉ (fetchAllRefs b rs).2.2 ∧
        g ∈ (fetchAllRefs b rs).2.1.loadedAnchorGroups))
  ∧ (g ∈ (fetchRefs b cfg rs key).2.2 →
      g ∈ (fetchRefs b cfg rs key).2.1.loadedAnchorGroups)
  ∧ (g ∈ (fetchAllRefs b rs).2.2 →
      g ∈ (fetchAllRefs b rs).2.1.loadedAnchorGroups)
  ∧ (fetchRefs b cfg ((fetchRefs b cfg rs key).2.1) key).1 =
      (fetchRefs b cfg rs key).1 := by
  have hall : g ∈ rs.loadedAnchorGroups →
      g ∉ (fetchAllRefs b rs).2.2 ∧
        g ∈ (fetchAllRefs b rs).2.1.loadedAnchorGroups := by
    intro hg
    by_cases hlz : rs.source ∉ lazyLoadedSources
    · have hred : fetchAllRefs b rs = (rs.refs, rs, []) := by
        unfold fetchAllRefs
        rw [if_pos hlz]
      rw [hred]
      exact ⟨by simp, hg⟩
    · have hred : fetchAllRefs b rs =
          ((loadGroups b rs b.files).1.refs, (loadGroups b rs b.files).1,
            (loadGroups b rs b.files).2) := by
        unfold fetchAllRefs
        rw [if_neg (not_not_intro (not_not.mp hlz))]
      rw [hred]
      obtain ⟨h1, _, _, _⟩ := loadGroups_spec b b.files rs
      exact ⟨(h1 g hg).2, (h1 g hg).1⟩
  have hall2 : g ∈ (fetchAllRefs b rs).2.2 →
      g ∈ (fetchAllRefs b rs).2.1.loadedAnchorGroups := by
    by_cases hlz : rs.source ∉ lazyLoadedSources
    · have hred : fetchAllRefs b rs = (rs.refs, rs, []) := by
        unfold fetchAllRefs
        rw [if_pos hlz]
      rw [hred]
      intro hc
      exact absurd hc (by simp)
    · have hred : fetchAllRefs b rs =
          ((loadGroups b rs b.files).1.refs, (loadGroups b rs b.files).1,
            (loadGroups b rs b.files).2) := by
        unfold fetchAllRefs
        rw [if_neg (not_not_intro (not_not.mp hlz))]
      rw [hred]
      obtain ⟨_, _, _, h4⟩ := loadGroups_spec b b.files rs
      exact h4 g
  cases hk : rs.refs.lookup key with
  | some v =>
    have hred : fetchRefs b cfg rs key = (v, rs, []) := by
      simp only [fetchRefs, hk]
    rw [hred]
    refine ⟨fun hg => ⟨⟨by simp, hg⟩, hall hg⟩, fun hc => absurd hc (by simp),
      hall2, ?_⟩
    simp only
    rw [hred]
  | none =>
    by_cases hlz : rs.source ∉ lazyLoadedSources
    · have hred : fetchRefs b cfg rs key = ([], rs, []) := by
        simp only [fetchRefs, hk]
        rw [if_pos hlz]
      rw [hred]
      refine ⟨fun hg => ⟨⟨by simp, hg⟩, hall hg⟩, fun hc => absurd hc (by simp),
        hall2, ?_⟩
      simp only
      rw [hred]
    · by_cases hgl : cfg.groupFromKey key ∈ rs.loadedAnchorGroups
      · have hred : fetchRefs b cfg rs key = ([], rs, []) := by
          simp only [fetchRefs, hk]
          rw [if_neg hlz, if_pos hgl]
        rw [hred]
        refine ⟨fun hg => ⟨⟨by simp, hg⟩, hall hg⟩,
          fun hc => absurd hc (by simp), hall2, ?_⟩
        simp only
        rw [hred]
      · set rs' : RefSource :=
          { rs with
            refs := dictUpdate rs.refs
              ((b.content
                ("anchors-" ++ cfg.groupFromKey key ++ ".data")).getD [])
            loadedAnchorGroups :=
              rs.loadedAnchorGroups ++ [cfg.groupFromKey key] } with hrs'
        have hred : fetchRefs b cfg rs key =
            ((rs'.refs.lookup key).getD [], rs', [cfg.groupFromKey key]) := by
          simp only [fetchRefs, hk]
          rw [if_neg hlz, if_neg hgl]
        have hmem : ∀ x, x ∈ rs.loadedAnchorGroups →
            x ∈ rs'.loadedAnchorGroups := by
          intro x hx
          rw [hrs']
          simp [hx]
        have hgrp : cfg.groupFromKey key ∈ rs'.loadedAnchorGroups := by
          rw [hrs']
          simp
        rw [hred]
        refine ⟨fun hg => ⟨⟨?_, hmem g hg⟩, hall hg⟩, ?_, hall2, ?_⟩
        · simp only [List.mem_singleton]
          rintro rfl
          exact hgl hg
        · intro hc
          simp only [List.mem_singleton] at hc
          subst hc
          exact hgrp
        · cases hk2 : rs'.refs.lookup key with
          | some w =>
            have hred2 : fetchRefs b cfg rs' key = (w, rs', []) := by
              simp only [fetchRefs, hk2]
            simp only
            rw [hred2]
            simp [hk2]
          | none =>
            have hlz' : ¬ rs'.source ∉ lazyLoadedSources := by
              rw [hrs']
              exact hlz
            have hred2 : fetchRefs b cfg rs' key = ([], rs', []) := by
              simp only [fetchRefs, hk2]
              rw [if_neg hlz', if_pos hgrp]
            simp only
            rw [hred2]
            simp [hk2]

/-- Witness for C6 at a concrete input: with group `"fo"` already loaded,
a fetch of a key in that group reads nothing and keeps the group loaded. -/
theorem fetch_load_once_witness :
    "fo" ∉
      (fetchRefs ⟨[], fun _ => none⟩
        ⟨[], [], [], [], fun _ => "fo", fun _ _ => []⟩
        { source := "foreign", loadedAnchorGroups := ["fo"] } "foo").2.2 ∧
    "fo" ∈
      (fetchRefs ⟨[], fun _ => none⟩
        ⟨[], [], [], [], fun _ => "fo", fun _ _ => []⟩
        { source := "foreign", loadedAnchorGroups := ["fo"] }
        "foo").2.1.loadedAnchorGroups :=
  ((fetch_load_once ⟨[], fun _ => none⟩
    ⟨[], [], [], [], fun _ => "fo", fun _ _ => []⟩
    { source := "foreign", loadedAnchorGroups := ["fo"] } "foo" "fo").1
      (by decide)).1

theorem maxFilter_ne_nil (l : List RefWrapper) (h : l ≠ []) :
    l.filter (fun r => r.level == maxLevel (l.map RefWrapper.level)) ≠ [] := by
  have hmem := maxLevel_mem (l.map RefWrapper.level) (by simpa using h)
  rw [List.mem_map] at hmem
  obtain ⟨x, hx, hlev⟩ := hmem
  intro hemp
  have hxf : x ∈ l.filter (fun r =>
      r.level == maxLevel (l.map RefWrapper.level)) := by
    rw [List.mem_filter]
    exact ⟨hx, beq_iff_eq.mpr hlev⟩
  rw [hemp] at hxf
  exact List.not_mem_nil x hxf

theorem dedupByUrl_ne_nil (refs : List RefWrapper) (h : refs ≠ []) :
    dedupByUrl refs ≠ [] := by
  obtain ⟨r, rest, rfl⟩ := List.exists_cons_of_ne_nil h
  simp [dedupByUrl, dedupAux]

theorem levelResolve_ne_nil (status : Option String) (refs : List RefWrapper)
    (h : refs ≠ []) : levelResolve status refs ≠ [] := by
  obtain ⟨r, rest, rfl⟩ := List.exists_cons_of_ne_nil h
  set refs := r :: rest with hrefs
  have hsn : r.shortname ∈ dedupKeys [] (refs.map RefWrapper.shortname) := by
    rw [mem_dedupKeys]
    exact ⟨List.mem_map_of_mem RefWrapper.shortname (by simp [hrefs]), by simp⟩
  have hbranch : (if status == some "snapshot" &&
        !((refs.filter (fun x => x.shortname == r.shortname)).filter (fun x =>
          status == some "snapshot" && x.status == "snapshot")).isEmpty then
        ((refs.filter (fun x => x.shortname == r.shortname)).filter (fun x =>
          status == some "snapshot" && x.status == "snapshot")).filter (fun x =>
            x.level == maxLevel
              (((refs.filter (fun x => x.shortname == r.shortname)).filter
                (fun x => status == some "snapshot" &&
                  x.status == "snapshot")).map RefWrapper.level))
      else
        (refs.filter (fun x => x.shortname == r.shortname)).filter (fun x =>
          x.level == maxLevel
            ((refs.filter (fun x =>
              x.shortname == r.shortname)).map RefWrapper.level))) ≠ [] := by
    split
    case isTrue hb =>
      rw [Bool.and_eq_true] at hb
      apply maxFilter_ne_nil
      intro hemp
      rw [hemp] at hb
      simp at hb
    case isFalse hb =>
      apply maxFilter_ne_nil
      intro hemp
      have : r ∈ refs.filter (fun x => x.shortname == r.shortname) := by
        rw [List.mem_filter]
        exact ⟨by simp [hrefs], beq_iff_eq.mpr rfl⟩
      rw [hemp] at this
      exact List.not_mem_nil r this
  intro hemp
  apply hbranch
  have hmem : ∀ y, y ∈ (if status == some "snapshot" &&
        !((refs.filter (fun x => x.shortname == r.shortname)).filter (fun x =>
          status == some "snapshot" && x.status == "snapshot")).isEmpty then
        ((refs.filter (fun x => x.shortname == r.shortname)).filter (fun x =>
          status == some "snapshot" && x.status == "snapshot")).filter (fun x =>
            x.level == maxLevel
              (((refs.filter (fun x => x.shortname == r.shortname)).filter
                (fun x => status == some "snapshot" &&
                  x.status == "snapshot")).map RefWrapper.level))
      else
        (refs.filter (fun x => x.shortname == r.shortname)).filter (fun x =>
          x.level == maxLevel
            ((refs.filter (fun x =>
              x.shortname == r.shortname)).map RefWrapper.level))) →
      y ∈ levelResolve status refs := by
    intro y hy
    rw [levelResolve, List.mem_flatten]
    refine ⟨_, List.mem_map_of_mem _ hsn, hy⟩
  cases hcase : (if status == some "snapshot" &&
        !((refs.filter (fun x => x.shortname == r.shortname)).filter (fun x =>
          status == some "snapshot" && x.status == "snapshot")).isEmpty then
        ((refs.filter (fun x => x.shortname == r.shortname)).filter (fun x =>
          status == some "snapshot" && x.status == "snapshot")).filter (fun x =>
            x.level == maxLevel
              (((refs.filter (fun x => x.shortname == r.shortname)).filter
                (fun x => status == some "snapshot" &&
                  x.status == "snapshot")).map RefWrapper.level))
      else
        (refs.filter (fun x => x.shortname == r.shortname)).filter (fun x =>
          x.level == maxLevel
            ((refs.filter (fun x =>
              x.shortname == r.shortname)).map RefWrapper.level))) with
    | nil => rfl
    | cons z zs =>
      have hz := hmem z (by rw [hcase]; exact List.mem_cons_self z zs)
      rw [hemp] at hz
      exact absurd hz (List.not_mem_nil z)

theorem hintNarrow_ne_nil (hint : String) (l : List RefWrapper)
    (h : l ≠ []) :
    (let tempRefs := l.filter (fun x => x.for_.contains hint)
     if tempRefs.isEmpty then l else tempRefs) ≠ [] := by
  simp only
  split
  · exact h
  · rename_i hne
    simpa [List.isEmpty_iff] using hne

theorem obsoletesStage_cases (replacedSpecs : List (String × String))
    (ignoredSpecs : List String) (q : Query) (refs6 : List RefWrapper)
    (o : QueryOutcome)
    (h : obsoletesStage replacedSpecs ignoredSpecs q refs6 = some o) :
    (o.stage = none ∧ o.refs ≠ []) ∨
      (o.refs = [] ∧ (o.stage = some "text" ∨ o.stage = some "type" ∨
        o.stage = some "export" ∨ o.stage = some "spec" ∨
        o.stage = some "for" ∨ o.stage = some "status" ∨
        o.stage = some "ignored-specs")) := by
  simp only [obsoletesStage] at h
  by_cases h7 : (if q.ignoreObsoletes && (optTruthy q.spec).isNone then
      filterObsoletes replacedSpecs ignoredSpecs refs6 else refs6).isEmpty
  · rw [if_pos h7] at h
    cases h
    refine Or.inr ⟨?_, by simp⟩
    simpa [List.isEmpty_iff] using h7
  · rw [if_neg h7] at h
    cases h
    refine Or.inl ⟨rfl, ?_⟩
    apply levelResolve_ne_nil
    apply dedupByUrl_ne_nil
    have h7' : (if q.ignoreObsoletes && (optTruthy q.spec).isNone then
        filterObsoletes replacedSpecs ignoredSpecs refs6 else refs6) ≠ [] := by
      simpa [List.isEmpty_iff] using h7
    cases hh : optTruthy q.linkForHint with
    | none =>
      simp only [hh]
      exact h7'
    | some hint =>
      simp only [hh]
      exact hintNarrow_ne_nil hint _ h7'

theorem statusHintStage_cases (specs : List (String × SpecEntry))
    (replacedSpecs : List (String × String)) (ignoredSpecs : List String)
    (cfg : Config) (q : Query) (refs5 : List RefWrapper) (o : QueryOutcome)
    (h : statusHintStage specs replacedSpecs ignoredSpecs cfg q refs5 =
      some o) :
    (o.stage = none ∧ o.refs ≠ []) ∨
      (o.refs = [] ∧ (o.stage = some "text" ∨ o.stage = some "type" ∨
        o.stage = some "export" ∨ o.stage = some "spec" ∨
        o.stage = some "for" ∨ o.stage = some "status" ∨
        o.stage = some "ignored-specs")) := by
  simp only [statusHintStage] at h
  cases hq : q.status with
  | some s =>
    simp only [hq] at h
    exact obsoletesStage_cases _ _ _ _ _ h
  | none =>
    simp only [hq] at h
    cases hsh : optTruthy q.statusHint with
    | none =>
      simp only [hsh] at h
      exact obsoletesStage_cases _ _ _ _ _ h
    | some sh =>
      simp only [hsh] at h
      cases hfs : filterByStatus specs cfg.linkStatuses refs5 sh with
      | none =>
        simp only [hfs] at h
        exact Option.noConfusion h
      | some tmp =>
        simp only [hfs] at h
        exact obsoletesStage_cases _ _ _ _ _ h

theorem statusStage_cases (specs : List (String × SpecEntry))
    (replacedSpecs : List (String × String)) (ignoredSpecs : List String)
    (cfg : Config) (q : Query) (refs4 : List RefWrapper) (o : QueryOutcome)
    (h : statusStage specs replacedSpecs ignoredSpecs cfg q refs4 = some o) :
    (o.stage = none ∧ o.refs ≠ []) ∨
      (o.refs = [] ∧ (o.stage = some "text" ∨ o.stage = some "type" ∨
        o.stage = some "export" ∨ o.stage = some "spec" ∨
        o.stage = some "for" ∨ o.stage = some "status" ∨
        o.stage = some "ignored-specs")) := by
  simp only [statusStage] at h
  have hnext : ∀ refs5 : List RefWrapper,
      (if refs5.isEmpty then some (⟨refs5, some "status", []⟩ : QueryOutcome)
       else statusHintStage specs replacedSpecs ignoredSpecs cfg q refs5) =
        some o →
      (o.stage = none ∧ o.refs ≠ []) ∨
        (o.refs = [] ∧ (o.stage = some "text" ∨ o.stage = some "type" ∨
          o.stage = some "export" ∨ o.stage = some "spec" ∨
          o.stage = some "for" ∨ o.stage = some "status" ∨
          o.stage = some "ignored-specs")) := by
    intro refs5 h5
    by_cases he : refs5.isEmpty
    · rw [if_pos he] at h5
      cases h5
      refine Or.inr ⟨?_, by simp⟩
      simpa [List.isEmpty_iff] using he
    · rw [if_neg he] at h5
      exact statusHintStage_cases _ _ _ _ _ _ _ h5
  cases hq : optTruthy q.status with
  | none =>
    simp only [hq] at h
    exact hnext refs4 h
  | some s =>
    simp only [hq] at h
    cases hfs : filterByStatus specs cfg.linkStatuses refs4 s with
    | none =>
      simp only [hfs] at h
      exact Option.noConfusion h
    | some refs5 =>
      simp only [hfs] at h
      exact hnext refs5 h

theorem forStage_cases (specs : List (String × SpecEntry))
    (replacedSpecs : List (String × String)) (ignoredSpecs : List String)
    (cfg : Config) (q : Query) (refs3 : List RefWrapper) (o : QueryOutcome)
    (h : forStage specs replacedSpecs ignoredSpecs cfg q refs3 = some o) :
    (o.stage = none ∧ o.refs ≠ []) ∨
      (o.refs = [] ∧ (o.stage = some "text" ∨ o.stage = some "type" ∨
        o.stage = some "export" ∨ o.stage = some "spec" ∨
        o.stage = some "for" ∨ o.stage = some "status" ∨
        o.stage = some "ignored-specs")) := by
  simp only [forStage] at h
  split at h
  · cases h
    refine Or.inr ⟨?_, by simp⟩
    simp_all [List.isEmpty_iff]
  · exact statusStage_cases _ _ _ _ _ _ _ h

theorem specStage_cases (specs : List (String × SpecEntry))
    (replacedSpecs : List (String × String)) (ignoredSpecs : List String)
    (cfg : Config) (q : Query) (refs2 : List RefWrapper) (o : QueryOutcome)
    (h : specStage specs replacedSpecs ignoredSpecs cfg q refs2 = some o) :
    (o.stage = none ∧ o.refs ≠ []) ∨
      (o.refs = [] ∧ (o.stage = some "text" ∨ o.stage = some "type" ∨
        o.stage = some "export" ∨ o.stage = some "spec" ∨
        o.stage = some "for" ∨ o.stage = some "status" ∨
        o.stage = some "ignored-specs")) := by
  simp only [specStage] at h
  split at h
  · cases h
    refine Or.inr ⟨?_, by simp⟩
    simp_all [List.isEmpty_iff]
  · exact forStage_cases _ _ _ _ _ _ _ h

theorem exportStage_cases (specs : List (String × SpecEntry))
    (replacedSpecs : List (String × String)) (ignoredSpecs : List String)
    (cfg : Config) (q : Query) (refs1 : List RefWrapper) (o : QueryOutcome)
    (h : exportStage specs replacedSpecs ignoredSpecs cfg q refs1 = some o) :
    (o.stage = none ∧ o.refs ≠ []) ∨
      (o.refs = [] ∧ (o.stage = some "text" ∨ o.stage = some "type" ∨
        o.stage = some "export" ∨ o.stage = some "spec" ∨
        o.stage = some "for" ∨ o.stage = some "status" ∨
        o.stage = some "ignored-specs")) := by
  simp only [exportStage] at h
  split at h
  · cases h
    refine Or.inr ⟨?_, by simp⟩
    simp_all [List.isEmpty_iff]
  · exact specStage_cases _ _ _ _ _ _ _ h

theorem typeCheckStage_cases (specs : List (String × SpecEntry))
    (replacedSpecs : List (String × String)) (ignoredSpecs : List String)
    (cfg : Config) (q : Query) (refs1 : List RefWrapper) (o : QueryOutcome)
    (h : typeCheckStage specs replacedSpecs ignoredSpecs cfg q refs1 =
      some o) :
    (o.stage = none ∧ o.refs ≠ []) ∨
      (o.refs = [] ∧ (o.stage = some "text" ∨ o.stage = some "type" ∨
        o.stage = some "export" ∨ o.stage = some "spec" ∨
        o.stage = some "for" ∨ o.stage = some "status" ∨
        o.stage = some "ignored-specs")) := by
  simp only [typeCheckStage] at h
  split at h
  · cases h
    refine Or.inr ⟨?_, by simp⟩
    simp_all [List.isEmpty_iff]
  · exact exportStage_cases _ _ _ _ _ _ _ h

theorem typeStage_cases (specs : List (String × SpecEntry))
    (replacedSpecs : List (String × String)) (ignoredSpecs : List String)
    (cfg : Config) (q : Query) (error : Bool) (refs0 : List RefWrapper)
    (o : QueryOutcome)
    (h : typeStage specs replacedSpecs ignoredSpecs cfg q error refs0 =
      some o) :
    (o.stage = none ∧ o.refs ≠ []) ∨
      (o.refs = [] ∧ (o.stage = some "text" ∨ o.stage = some "type" ∨
        o.stage = some "export" ∨ o.stage = some "spec" ∨
        o.stage = some "for" ∨ o.stage = some "status" ∨
        o.stage = some "ignored-specs")) := by
  simp only [typeStage] at h
  cases hlt : optTruthy q.linkType with
  | none =>
    simp only [hlt] at h
    exact typeCheckStage_cases _ _ _ _ _ _ _ h
  | some lt =>
    simp only [hlt] at h
    split at h
    · exact typeCheckStage_cases _ _ _ _ _ _ _ h
    · cases hmap : cfg.linkTypeToDfnType.lookup lt with
      | some linkTypes =>
        simp only [hmap] at h
        exact typeCheckStage_cases _ _ _ _ _ _ _ h
      | none =>
        simp only [hmap] at h
        cases h
        exact Or.inr ⟨rfl, by simp⟩

theorem queryPipeline_cases (specs : List (String × SpecEntry))
    (replacedSpecs : List (String × String)) (ignoredSpecs : List String)
    (cfg : Config) (q : Query) (error : Bool) (refs0 : List RefWrapper)
    (o : QueryOutcome)
    (h : queryPipeline specs replacedSpecs ignoredSpecs cfg q error refs0 =
      some o) :
    (o.stage = none ∧ o.refs ≠ []) ∨
      (o.refs = [] ∧ (o.stage = some "text" ∨ o.stage = some "type" ∨
        o.stage = some "export" ∨ o.stage = some "spec" ∨
        o.stage = some "for" ∨ o.stage = some "status" ∨
        o.stage = some "ignored-specs")) := by
  simp only [queryPipeline] at h
  split at h
  · cases h
    refine Or.inr ⟨?_, by simp⟩
    simp_all [List.isEmpty_iff]
  · exact typeStage_cases _ _ _ _ _ _ _ _ h

/-- C10: every query result is consistent: the failure stage is non-null
exactly when the returned candidate list is empty, every non-null failure
stage is one of the seven stage names, and the dedup plus level-resolution
tail of the pipeline maps a non-empty candidate set to a non-empty result
(so an attempt that reaches them cannot fail). -/
theorem queryRefs_consistent (b : Backing) (cfg : Config) (rs : RefSource)
    (q : Query) (ex er : Bool) (o : QueryOutcome) (st : RefSource) :
    ((_queryRefs b cfg rs q ex er = some (o, st) ∨
        queryRefs b cfg rs q ex = some (o, st)) →
      ((o.stage = none ↔ o.refs ≠ []) ∧
        (o.stage = none ∨ o.stage = some "text" ∨ o.stage = some "type" ∨
          o.stage = some "export" ∨ o.stage = some "spec" ∨
          o.stage = some "for" ∨ o.stage = some "status" ∨
          o.stage = some "ignored-specs")))
  ∧ (∀ refs : List RefWrapper, refs ≠ [] →
      levelResolve q.status (dedupByUrl refs) ≠ []) := by
  have hq : ∀ (rs : RefSource) (ex er : Bool) (o : QueryOutcome)
      (st : RefSource), _queryRefs b cfg rs q ex er = some (o, st) →
      (o.stage = none ∧ o.refs ≠ []) ∨
        (o.refs = [] ∧ (o.stage = some "text" ∨ o.stage = some "type" ∨
          o.stage = some "export" ∨ o.stage = some "spec" ∨
          o.stage = some "for" ∨ o.stage = some "status" ∨
          o.stage = some "ignored-specs")) := by
    intro rs ex er o st h
    simp only [_queryRefs] at h
    cases hp : queryPipeline (seedRefs b cfg rs q ex).2.specs
        (seedRefs b cfg rs q ex).2.replacedSpecs
        (seedRefs b cfg rs q ex).2.ignoredSpecs cfg q er
        (seedRefs b cfg rs q ex).1 with
    | none =>
      rw [hp] at h
      exact Option.noConfusion h
    | some o2 =>
      rw [hp] at h
      cases h
      exact queryPipeline_cases _ _ _ _ _ _ _ _ hp
  constructor
  · rintro (h | h)
    · rcases hq rs ex er o st h with ⟨h1, h2⟩ | ⟨h1, h2⟩
      · exact ⟨⟨fun _ => h2, fun _ => h1⟩, Or.inl h1⟩
      · refine ⟨⟨?_, ?_⟩, Or.inr h2⟩
        · intro hn
          rcases h2 with hs | hs | hs | hs | hs | hs | hs <;>
            (rw [hs] at hn; exact Option.noConfusion hn)
        · intro hne
          exact absurd h1 hne
    · simp only [queryRefs] at h
      have hfin : ∀ (rs0 : RefSource) (ex0 er0 : Bool),
          _queryRefs b cfg rs0 q ex0 er0 = some (o, st) →
          (o.stage = none ↔ o.refs ≠ []) ∧
            (o.stage = none ∨ o.stage = some "text" ∨
              o.stage = some "type" ∨ o.stage = some "export" ∨
              o.stage = some "spec" ∨ o.stage = some "for" ∨
              o.stage = some "status" ∨ o.stage = some "ignored-specs") := by
        intro rs0 ex0 er0 h0
        rcases hq rs0 ex0 er0 o st h0 with ⟨h1, h2⟩ | ⟨h1, h2⟩
        · exact ⟨⟨fun _ => h2, fun _ => h1⟩, Or.inl h1⟩
        · refine ⟨⟨?_, ?_⟩, Or.inr h2⟩
          · intro hn
            rcases h2 with hs | hs | hs | hs | hs | hs | hs <;>
              (rw [hs] at hn; exact Option.noConfusion hn)
          · intro hne
            exact absurd h1 hne
      cases hp1 : _queryRefs b cfg rs q true false with
      | none =>
        rw [hp1] at h
        exact Option.noConfusion h
      | some p =>
        obtain ⟨o1, rs1⟩ := p
        simp only [hp1] at h
        split at h
        · exact hfin rs1 false false h
        · cases h
          exact hfin rs true false hp1
  · intro refs hne
    exact levelResolve_ne_nil q.status (dedupByUrl refs)
      (dedupByUrl_ne_nil refs hne)

/-- Witness for C10 at a concrete input: the successful query result has a
null failure stage and a non-empty list. -/
theorem queryRefs_consistent_witness :
    (((⟨[⟨"foo", aT⟩], none, []⟩ : QueryOutcome).stage = none ↔
        (⟨[⟨"foo", aT⟩], none, []⟩ : QueryOutcome).refs ≠ []) ∧
      ((⟨[⟨"foo", aT⟩], none, []⟩ : QueryOutcome).stage = none ∨
        (⟨[⟨"foo", aT⟩], none, []⟩ : QueryOutcome).stage = some "text" ∨
        (⟨[⟨"foo", aT⟩], none, []⟩ : QueryOutcome).stage = some "type" ∨
        (⟨[⟨"foo", aT⟩], none, []⟩ : QueryOutcome).stage = some "export" ∨
        (⟨[⟨"foo", aT⟩], none, []⟩ : QueryOutcome).stage = some "spec" ∨
        (⟨[⟨"foo", aT⟩], none, []⟩ : QueryOutcome).stage = some "for" ∨
        (⟨[⟨"foo", aT⟩], none, []⟩ : QueryOutcome).stage = some "status" ∨
        (⟨[⟨"foo", aT⟩], none, []⟩ : QueryOutcome).stage =
          some "ignored-specs")) :=
  (queryRefs_consistent bT cfgT rsT { text := some "foo" } false false
    ⟨[⟨"foo", aT⟩], none, []⟩ rsT).1 (Or.inr (by decide))

/-- C1: `queryRefs` first runs `_queryRefs` in exact mode; when that
attempt fails (non-null failure stage) and the caller did not request
exact matching, it reruns `_queryRefs` in non-exact mode from the
post-attempt state and returns that second result; when the exact attempt
succeeds, or the caller requested exact, the exact attempt's result is
returned unchanged. -/
theorem queryRefs_retry (b : Backing) (cfg : Config) (rs : RefSource)
    (q : Query) (o1 : QueryOutcome) (rs1 : RefSource)
    (_htext : optTruthy q.text ≠ none)
    (h1 : _queryRefs b cfg rs q true false = some (o1, rs1)) :
    (o1.stage ≠ none →
      queryRefs b cfg rs q false = _queryRefs b cfg rs1 q false false)
  ∧ (o1.stage = none → ∀ ex, queryRefs b cfg rs q ex = some (o1, rs1))
  ∧ queryRefs b cfg rs q true = some (o1, rs1) := by
  have hstage : (o1.stage = none ∧ o1.refs ≠ []) ∨
      (o1.refs = [] ∧ (o1.stage = some "text" ∨ o1.stage = some "type" ∨
        o1.stage = some "export" ∨ o1.stage = some "spec" ∨
        o1.stage = some "for" ∨ o1.stage = some "status" ∨
        o1.stage = some "ignored-specs")) := by
    have h1' := h1
    simp only [_queryRefs] at h1'
    cases hp : queryPipeline (seedRefs b cfg rs q true).2.specs
        (seedRefs b cfg rs q true).2.replacedSpecs
        (seedRefs b cfg rs q true).2.ignoredSpecs cfg q false
        (seedRefs b cfg rs q true).1 with
    | none =>
      rw [hp] at h1'
      exact Option.noConfusion h1'
    | some o2 =>
      rw [hp] at h1'
      cases h1'
      exact queryPipeline_cases _ _ _ _ _ _ _ _ hp
  refine ⟨?_, ?_, ?_⟩
  · intro hne
    have hpt : pyTruthyStage o1.stage = true := by
      rcases hstage with ⟨hn, _⟩ | ⟨_, hs⟩
      · exact absurd hn hne
      · rcases hs with hs | hs | hs | hs | hs | hs | hs <;>
          (rw [hs]; decide)
    simp only [queryRefs, h1, hpt, Bool.not_false, Bool.and_true, if_true]
  · intro h0 ex
    have hpt : pyTruthyStage o1.stage = false := by
      rw [h0]
      decide
    simp only [queryRefs, h1, hpt, Bool.false_and, Bool.if_false_left,
      Bool.false_eq_true, if_false]
  · simp only [queryRefs, h1, Bool.not_true, Bool.and_false,
      Bool.false_eq_true, if_false]

/-- Witness for C1 at a concrete input: the exact attempt for `"Foo"`
fails at stage `"text"`, so the non-exact rerun's result is returned. -/
theorem queryRefs_retry_witness :
    queryRefs bT cfgT rsT { text := some "Foo" } false =
      _queryRefs bT cfgT rsT { text := some "Foo" } false false :=
  (queryRefs_retry bT cfgT rsT { text := some "Foo" }
    ⟨[], some "text", []⟩ rsT (by decide) (by decide)).1 (by decide)

/-- C2 (amended): for a query whose `linkType` is neither a known
definition kind nor a key of the link-type mapping, `queryRefs` returns
`([], "type")` from the attempt that reaches the type stage (or
`([], "text")` when that attempt's seed set is already empty), and the
unknown-link-type error is never emitted through `queryRefs`: the internal
error flag is false on the speculative and on the final attempt alike, so
the emitted-error list of the result is always empty. -/
theorem queryRefs_unknown_linkType (b : Backing) (cfg : Config)
    (rs : RefSource) (q : Query) (ex : Bool) (lt : String)
    (hlt : optTruthy q.linkType = some lt)
    (h1 : lt ∉ cfg.dfnTypes)
    (h2 : cfg.linkTypeToDfnType.lookup lt = none) :
    ∃ stg st, queryRefs b cfg rs q ex = some (⟨[], some stg, []⟩, st) ∧
      (stg = "type" ∨ stg = "text") := by
  have hattempt : ∀ (rs : RefSource) (ex : Bool),
      ∃ stg st,
        _queryRefs b cfg rs q ex false = some (⟨[], some stg, []⟩, st) ∧
          (stg = "type" ∨ stg = "text") := by
    intro rs ex
    by_cases hs : (seedRefs b cfg rs q ex).1.isEmpty
    · have hpipe : queryPipeline (seedRefs b cfg rs q ex).2.specs
          (seedRefs b cfg rs q ex).2.replacedSpecs
          (seedRefs b cfg rs q ex).2.ignoredSpecs cfg q false
          (seedRefs b cfg rs q ex).1 = some ⟨[], some "text", []⟩ := by
        rw [queryPipeline, if_pos hs]
        have he : (seedRefs b cfg rs q ex).1 = [] := by
          simpa [List.isEmpty_iff] using hs
        rw [he]
      refine ⟨"text", (seedRefs b cfg rs q ex).2, ?_, Or.inr rfl⟩
      simp only [_queryRefs, hpipe]
    · have hpipe : queryPipeline (seedRefs b cfg rs q ex).2.specs
          (seedRefs b cfg rs q ex).2.replacedSpecs
          (seedRefs b cfg rs q ex).2.ignoredSpecs cfg q false
          (seedRefs b cfg rs q ex).1 = some ⟨[], some "type", []⟩ := by
        rw [queryPipeline, if_neg hs]
        simp only [typeStage, hlt, h2]
        rw [if_neg h1]
        simp
      refine ⟨"type", (seedRefs b cfg rs q ex).2, ?_, Or.inl rfl⟩
      simp only [_queryRefs, hpipe]
  obtain ⟨stg1, st1, hq1, hd1⟩ := hattempt rs true
  cases ex with
  | true =>
    refine ⟨stg1, st1, ?_, hd1⟩
    simp only [queryRefs, hq1, Bool.not_true, Bool.and_false,
      Bool.false_eq_true, if_false]
  | false =>
    obtain ⟨stg2, st2, hq2, hd2⟩ := hattempt st1 false
    refine ⟨stg2, st2, ?_, hd2⟩
    have hpt : pyTruthyStage (some stg1) = true := by
      rcases hd1 with rfl | rfl <;> decide
    simp only [queryRefs, hq1, hpt, Bool.not_false, Bool.and_true, if_true]
    exact hq2

/-- Witness for C2 at a concrete input: an unknown link type over a
non-empty seed yields `([], "type")` with no emitted error. -/
theorem queryRefs_unknown_linkType_witness :
    ∃ stg st,
      queryRefs bT cfgT rsT { text := some "foo", linkType := some "bogus" }
        false = some (⟨[], some stg, []⟩, st) ∧
        (stg = "type" ∨ stg = "text") :=
  queryRefs_unknown_linkType bT cfgT rsT
    { text := some "foo", linkType := some "bogus" } false "bogus"
    (by decide) (by decide) (by decide)

/-- Counterexample for C2 as stated: at this input the final, non-exact
attempt resolves an unknown link type, which the claim says must emit the
unknown-link-type error, yet the error flag is never passed by `queryRefs`
and the emitted-error list of the result is empty. -/
theorem queryRefs_unknown_linkType_counterexample :
    "bogus" ∉ cfgT.dfnTypes ∧
    cfgT.linkTypeToDfnType.lookup "bogus" = none ∧
    queryRefs bT cfgT rsT { text := some "foo", linkType := some "bogus" }
      false = some (⟨[], some "type", []⟩, rsT) := by
  decide

theorem statusStage_invalid (specs : List (String × SpecEntry))
    (replacedSpecs : List (String × String)) (ignoredSpecs : List String)
    (cfg : Config) (q : Query) (refs4 : List RefWrapper) (s : String)
    (hs : optTruthy q.status = some s) (h1 : s ∉ refStatus)
    (h2 : s ∉ cfg.linkStatuses) :
    statusStage specs replacedSpecs ignoredSpecs cfg q refs4 = none := by
  have hfs : filterByStatus specs cfg.linkStatuses refs4 s = none := by
    unfold filterByStatus
    rw [if_neg h1, if_neg h2]
  simp only [statusStage, hs, hfs]

theorem forStage_invalid (specs : List (String × SpecEntry))
    (replacedSpecs : List (String × String)) (ignoredSpecs : List String)
    (cfg : Config) (q : Query) (refs3 : List RefWrapper) (s : String)
    (hs : optTruthy q.status = some s) (h1 : s ∉ refStatus)
    (h2 : s ∉ cfg.linkStatuses) :
    forStage specs replacedSpecs ignoredSpecs cfg q refs3 = none ∨
      ∃ o, forStage specs replacedSpecs ignoredSpecs cfg q refs3 = some o ∧
        o.refs = [] ∧ (o.stage = some "text" ∨ o.stage = some "type" ∨
          o.stage = some "export" ∨ o.stage = some "spec" ∨
          o.stage = some "for") := by
  simp only [forStage]
  split
  · rename_i he
    refine Or.inr ⟨_, rfl, ?_, ?_⟩
    · simpa [List.isEmpty_iff] using he
    · simp
  · rw [statusStage_invalid specs replacedSpecs ignoredSpecs cfg q _ s hs h1
      h2]
    exact Or.inl rfl

theorem specStage_invalid (specs : List (String × SpecEntry))
    (replacedSpecs : List (String × String)) (ignoredSpecs : List String)
    (cfg : Config) (q : Query) (refs2 : List RefWrapper) (s : String)
    (hs : optTruthy q.status = some s) (h1 : s ∉ refStatus)
    (h2 : s ∉ cfg.linkStatuses) :
    specStage specs replacedSpecs ignoredSpecs cfg q refs2 = none ∨
      ∃ o, specStage specs replacedSpecs ignoredSpecs cfg q refs2 = some o ∧
        o.refs = [] ∧ (o.stage = some "text" ∨ o.stage = some "type" ∨
          o.stage = some "export" ∨ o.stage = some "spec" ∨
          o.stage = some "for") := by
  simp only [specStage]
  split
  · rename_i he
    refine Or.inr ⟨_, rfl, ?_, ?_⟩
    · simpa [List.isEmpty_iff] using he
    · simp
  · exact forStage_invalid specs replacedSpecs ignoredSpecs cfg q _ s hs h1 h2

theorem exportStage_invalid (specs : List (String × SpecEntry))
    (replacedSpecs : List (String × String)) (ignoredSpecs : List String)
    (cfg : Config) (q : Query) (refs1 : List RefWrapper) (s : String)
    (hs : optTruthy q.status = some s) (h1 : s ∉ refStatus)
    (h2 : s ∉ cfg.linkStatuses) :
    exportStage specs replacedSpecs ignoredSpecs cfg q refs1 = none ∨
      ∃ o, exportStage specs replacedSpecs ignoredSpecs cfg q refs1 =
        some o ∧
        o.refs = [] ∧ (o.stage = some "text" ∨ o.stage = some "type" ∨
          o.stage = some "export" ∨ o.stage = some "spec" ∨
          o.stage = some "for") := by
  simp only [exportStage]
  split
  · rename_i he
    refine Or.inr ⟨_, rfl, ?_, ?_⟩
    · simpa [List.isEmpty_iff] using he
    · simp
  · exact specStage_invalid specs replacedSpecs ignoredSpecs cfg q _ s hs h1
      h2

theorem typeCheckStage_invalid (specs : List (String × SpecEntry))
    (replacedSpecs : List (String × String)) (ignoredSpecs : List String)
    (cfg : Config) (q : Query) (refs1 : List RefWrapper) (s : String)
    (hs : optTruthy q.status = some s) (h1 : s ∉ refStatus)
    (h2 : s ∉ cfg.linkStatuses) :
    typeCheckStage specs replacedSpecs ignoredSpecs cfg q refs1 = none ∨
      ∃ o, typeCheckStage specs replacedSpecs ignoredSpecs cfg q refs1 =
        some o ∧
        o.refs = [] ∧ (o.stage = some "text" ∨ o.stage = some "type" ∨
          o.stage = some "export" ∨ o.stage = some "spec" ∨
          o.stage = some "for") := by
  simp only [typeCheckStage]
  split
  · rename_i he
    refine Or.inr ⟨_, rfl, ?_, ?_⟩
    · simpa [List.isEmpty_iff] using he
    · simp
  · exact exportStage_invalid specs replacedSpecs ignoredSpecs cfg q _ s hs
      h1 h2

theorem typeStage_invalid (specs : List (String × SpecEntry))
    (replacedSpecs : List (String × String)) (ignoredSpecs : List String)
    (cfg : Config) (q : Query) (error : Bool) (refs0 : List RefWrapper)
    (s : String)
    (hs : optTruthy q.status = some s) (h1 : s ∉ refStatus)
    (h2 : s ∉ cfg.linkStatuses) :
    typeStage specs replacedSpecs ignoredSpecs cfg q error refs0 = none ∨
      ∃ o, typeStage specs replacedSpecs ignoredSpecs cfg q error refs0 =
        some o ∧
        o.refs = [] ∧ (o.stage = some "text" ∨ o.stage = some "type" ∨
          o.stage = some "export" ∨ o.stage = some "spec" ∨
          o.stage = some "for") := by
  simp only [typeStage]
  cases hlt : optTruthy q.linkType with
  | none =>
    exact typeCheckStage_invalid specs replacedSpecs ignoredSpecs cfg q _ s
      hs h1 h2
  | some lt =>
    dsimp only
    by_cases hd : lt ∈ cfg.dfnTypes
    · rw [if_pos hd]
      exact typeCheckStage_invalid specs replacedSpecs ignoredSpecs cfg q _
        s hs h1 h2
    · rw [if_neg hd]
      cases hmap : cfg.linkTypeToDfnType.lookup lt with
      | some linkTypes =>
        exact typeCheckStage_invalid specs replacedSpecs ignoredSpecs cfg q
          _ s hs h1 h2
      | none =>
        refine Or.inr ⟨_, rfl, rfl, ?_⟩
        simp

theorem queryPipeline_invalid (specs : List (String × SpecEntry))
    (replacedSpecs : List (String × String)) (ignoredSpecs : List String)
    (cfg : Config) (q : Query) (error : Bool) (refs0 : List RefWrapper)
    (s : String)
    (hs : optTruthy q.status = some s) (h1 : s ∉ refStatus)
    (h2 : s ∉ cfg.linkStatuses) :
    queryPipeline specs replacedSpecs ignoredSpecs cfg q error refs0 =
        none ∨
      ∃ o, queryPipeline specs replacedSpecs ignoredSpecs cfg q error refs0
          = some o ∧
        o.refs = [] ∧ (o.stage = some "text" ∨ o.stage = some "type" ∨
          o.stage = some "export" ∨ o.stage = some "spec" ∨
          o.stage = some "for") := by
  simp only [queryPipeline]
  split
  · rename_i he
    refine Or.inr ⟨_, rfl, ?_, ?_⟩
    · simpa [List.isEmpty_iff] using he
    · simp
  · exact typeStage_invalid specs replacedSpecs ignoredSpecs cfg q error
      refs0 s hs h1 h2

/-- C8 (amended): a query whose status argument is truthy but neither a
recognized lifecycle status nor a recognized link status either raises a
fatal, unhandled fault (the `none` result of the model, from the bare
`raise` of `filterByStatus`) or fails at a stage strictly before the
status filter ("text", "type", "export", "spec" or "for") with an empty
candidate list; it never applies the invalid status as a filter and never
returns any result from the status stage onward.  Both `_queryRefs` and the
retrying `queryRefs` satisfy this. -/
theorem queryRefs_invalid_status (b : Backing) (cfg : Config)
    (rs : RefSource) (q : Query) (ex er : Bool) (s : String)
    (hs : optTruthy q.status = some s) (h1 : s ∉ refStatus)
    (h2 : s ∉ cfg.linkStatuses) :
    (_queryRefs b cfg rs q ex er = none ∨
      ∃ o st, _queryRefs b cfg rs q ex er = some (o, st) ∧
        o.refs = [] ∧ (o.stage = some "text" ∨ o.stage = some "type" ∨
          o.stage = some "export" ∨ o.stage = some "spec" ∨
          o.stage = some "for"))
  ∧ (queryRefs b cfg rs q ex = none ∨
      ∃ o st, queryRefs b cfg rs q ex = some (o, st) ∧
        o.refs = [] ∧ (o.stage = some "text" ∨ o.stage = some "type" ∨
          o.stage = some "export" ∨ o.stage = some "spec" ∨
          o.stage = some "for")) := by
  have hq : ∀ (rs : RefSource) (ex er : Bool),
      _queryRefs b cfg rs q ex er = none ∨
        ∃ o st, _queryRefs b cfg rs q ex er = some (o, st) ∧
          o.refs = [] ∧ (o.stage = some "text" ∨ o.stage = some "type" ∨
            o.stage = some "export" ∨ o.stage = some "spec" ∨
            o.stage = some "for") := by
    intro rs ex er
    rcases queryPipeline_invalid (seedRefs b cfg rs q ex).2.specs
        (seedRefs b cfg rs q ex).2.replacedSpecs
        (seedRefs b cfg rs q ex).2.ignoredSpecs cfg q er
        (seedRefs b cfg rs q ex).1 s hs h1 h2 with hp | ⟨o, hp, ho⟩
    · left
      simp only [_queryRefs, hp]
    · right
      exact ⟨o, (seedRefs b cfg rs q ex).2, by simp only [_queryRefs, hp],
        ho⟩
  constructor
  · exact hq rs ex er
  · rcases hq rs true false with hp1 | ⟨o1, st1, hp1, ho1, hs1⟩
    · left
      simp only [queryRefs, hp1]
    · have hpt : pyTruthyStage o1.stage = true := by
        rcases hs1 with h | h | h | h | h <;> (rw [h]; decide)
      cases ex with
      | true =>
        right
        refine ⟨o1, st1, ?_, ho1, hs1⟩
        simp only [queryRefs, hp1, Bool.not_true, Bool.and_false,
          Bool.false_eq_true, if_false]
      | false =>
        rcases hq st1 false false with hp2 | ⟨o2, st2, hp2, ho2, hs2⟩
        · left
          simp only [queryRefs, hp1, hpt, Bool.not_false, Bool.and_true,
            if_true]
          exact hp2
        · right
          refine ⟨o2, st2, ?_, ho2, hs2⟩
          simp only [queryRefs, hp1, hpt, Bool.not_false, Bool.and_true,
            if_true]
          exact hp2

/-- Witness for C8 at a concrete input: with a truthy invalid status that
reaches the status stage, the query raises (models as `none`). -/
theorem queryRefs_invalid_status_witness :
    queryRefs bT cfgT rsT { text := some "foo", status := some "bogus" }
        false = none ∨
      ∃ o st,
        queryRefs bT cfgT rsT { text := some "foo", status := some "bogus" }
          false = some (o, st) ∧
        o.refs = [] ∧ (o.stage = some "text" ∨ o.stage = some "type" ∨
          o.stage = some "export" ∨ o.stage = some "spec" ∨
          o.stage = some "for") :=
  (queryRefs_invalid_status bT cfgT rsT
    { text := some "foo", status := some "bogus" } false false "bogus"
    (by decide) (by decide) (by decide)).2

/-- Counterexample for C8 as stated: a query with the invalid status
`"bogus"` whose seed set is empty returns the value `([], "text")` instead
of raising, because the candidate set is exhausted before the status filter
runs. -/
theorem queryRefs_invalid_status_counterexample :
    (optTruthy (some "bogus") = some "bogus" ∧ "bogus" ∉ refStatus ∧
      "bogus" ∉ cfgT.linkStatuses) ∧
    queryRefs bT cfgT rsT { text := some "nothing", status := some "bogus" }
      false = some (⟨[], some "text", []⟩, rsT) := by
  decide
